import Mathlib

/-!
# Subsync: timestamp grammar, transform and retiming engine

A shallow embedding of `subsync.c`.  A C `char` is its byte value (read as a signed
`char` where the source compares it), a C string is the list of the bytes before its
terminating NUL.  `int` is 32 bits wide, `long` and `time_t` are 64 bits wide;
arithmetic on them wraps around explicitly.  The library calls `sscanf` and
`sprintf` are embedded for the formats the source uses.  A read beyond the
terminating NUL, or of a variable that was never written, is `none`.
-/

namespace Subsync

/-! ## Machine integers and characters -/

/-- The bytes of a C string, the terminating NUL left out. -/
abbrev CStr := List Nat

/-- The bytes of an ASCII string literal. -/
def cstr (s : String) : CStr := s.toList.map Char.toNat

/-- Reduction of an integer to the range of a 32-bit `int`. -/
def wrapInt (x : Int) : Int := (x + 2147483648) % 4294967296 - 2147483648

/-- Reduction of an integer to the range of a 64-bit `time_t` (or `long`). -/
def wrapLong (x : Int) : Int :=
  (x + 9223372036854775808) % 18446744073709551616 - 9223372036854775808

/-- The value lies in the range of `int`. -/
def fitsInt (x : Int) : Prop := -2147483648 ≤ x ∧ x ≤ 2147483647

/-- The value lies in the range of `time_t`. -/
def fitsLong (x : Int) : Prop := -9223372036854775808 ≤ x ∧ x ≤ 9223372036854775807

instance (x : Int) : Decidable (fitsInt x) := by unfold fitsInt; infer_instance

instance (x : Int) : Decidable (fitsLong x) := by unfold fitsLong; infer_instance

/-- The result of `strtol`: a value outside the range of `long` saturates. -/
def clampLong (x : Int) : Int :=
  if x < -9223372036854775808 then -9223372036854775808
  else if x > 9223372036854775807 then 9223372036854775807
  else x

/-- The `isdigit` of `ctype.h`. -/
def isdigit (c : Nat) : Bool := decide (48 ≤ c) && decide (c ≤ 57)

/-- The `isspace` of `ctype.h` in the C locale. -/
def isspace (c : Nat) : Bool := decide (c = 32) || (decide (9 ≤ c) && decide (c ≤ 13))

/-! ## The `sscanf` directives used by `strtoms` -/

/-- White space skipped by a blank in the format and by `%d` before a number. -/
def skipSpace : CStr → CStr
  | [] => []
  | c :: cs => if isspace c then skipSpace cs else c :: cs

/-- The run of decimal digits at the head of the text, folded into `acc`. -/
def scanDigits : Int → CStr → Int × CStr
  | acc, [] => (acc, [])
  | acc, c :: cs =>
    if isdigit c then scanDigits (acc * 10 + ((c : Int) - 48)) cs else (acc, c :: cs)

/-- The optional sign read by `%d`: whether it is a minus, and the text after it. -/
def scanSign : CStr → Bool × CStr
  | 43 :: r => (false, r)
  | 45 :: r => (true, r)
  | s => (false, s)

/-- The directive `%d`: skips white space, reads an optional sign and at least
one digit; the number is converted as by `strtol` (saturating at the range of
`long`) and its low 32 bits are stored in the `int`. -/
def scanInt (s : CStr) : Option (Int × CStr) :=
  let p := scanSign (skipSpace s)
  match p.2 with
  | [] => none
  | c :: cs =>
    if isdigit c then
      let q := scanDigits 0 (c :: cs)
      some (wrapInt (clampLong (if p.1 then -q.1 else q.1)), q.2)
    else none

/-- The format piece ` d `: white space, the literal byte `d`, white space. -/
def expect (d : Nat) (s : CStr) : Option CStr :=
  match skipSpace s with
  | [] => none
  | c :: r => if c = d then some (skipSpace r) else none

/-- The four fields of a successful `sscanf` and the count stored by `%n`. -/
structure Scan4 where
  hour : Int
  min : Int
  sec : Int
  msec : Int
  num : Nat
deriving DecidableEq, Repr

/-- The call `sscanf(s, "%d a %d b %d c %d%n", ...)`, `some` when it returns 4. -/
def sscanf4 (d : Nat × Nat × Nat) (s : CStr) : Option Scan4 :=
  match scanInt s with
  | none => none
  | some (hour, r1) =>
    match expect d.1 r1 with
    | none => none
    | some r2 =>
      match scanInt r2 with
      | none => none
      | some (min, r3) =>
        match expect d.2.1 r3 with
        | none => none
        | some r4 =>
          match scanInt r4 with
          | none => none
          | some (sec, r5) =>
            match expect d.2.2 r5 with
            | none => none
            | some r6 =>
              match scanInt r6 with
              | none => none
              | some (msec, r7) => some ⟨hour, min, sec, msec, s.length - r7.length⟩

/-! ## Timestamp grammar: `strtoms` and `mstostr` -/

/-- The delimiters of the five patterns of `strtoms`, in the order they are tried:
`H:M:S,ms`, `H:M:S.cs`, `H:M:S:ms`, `H.M.S.ms`, `H-M-S-ms`. -/
def pattern : List (Nat × Nat × Nat) :=
  [(58, 58, 44), (58, 58, 46), (58, 58, 58), (46, 46, 46), (45, 45, 45)]

/-- The loop over the patterns: index and fields of the first one that matches. -/
def firstMatch (s : CStr) : Nat → List (Nat × Nat × Nat) → Option (Nat × Scan4)
  | _, [] => none
  | i, d :: ds =>
    match sscanf4 d s with
    | some f => some (i, f)
    | none => firstMatch s (i + 1) ds

/-- What `strtoms` hands back: the returned value, the length stored through
`len` and the style stored through `style` (`none`: left unwritten). -/
structure Parsed where
  ret : Int
  len : Nat
  style : Option Nat
deriving DecidableEq, Repr

/-- The leading `+` or `-` consumed by `strtoms`: `type` and the text after it. -/
def takeSign : CStr → Nat × CStr
  | 43 :: r => (43, r)
  | 45 :: r => (45, r)
  | s => (0, s)

/-- The tail of `strtoms` once a pattern matched and the fields are in range. -/
def strtomsValue (type : Nat) (f : Scan4) (msec : Int) : Int :=
  let sec := wrapInt (f.sec + wrapInt (wrapInt (f.hour * 3600) + wrapInt (f.min * 60)))
  if type = 45 then wrapLong (-(wrapLong (wrapLong (sec * 1000) + msec)))
  else wrapLong (wrapLong (sec * 1000) + msec)

/-- The range checks of `strtoms` on the fields of the pattern `i` that matched,
and the value it returns. -/
def strtomsFields (type i : Nat) (f : Scan4) : Parsed :=
  if f.min < 0 ∨ f.min > 59 then ⟨-1, 0, none⟩
  else if f.sec < 0 ∨ f.sec > 59 then ⟨-1, 0, none⟩
  else if i = 1 then
    if f.msec < 0 ∨ f.msec > 99 then ⟨-1, 0, none⟩
    else ⟨strtomsValue type f (wrapInt (f.msec * 10)), f.num, some i⟩
  else
    if f.msec < 0 ∨ f.msec > 999 then ⟨-1, 0, none⟩
    else ⟨strtomsValue type f f.msec, f.num, some i⟩

/-- The function `strtoms`. -/
def strtoms (s : CStr) : Parsed :=
  let t := takeSign s
  match firstMatch t.2 0 pattern with
  | none => ⟨-1, 0, none⟩
  | some (i, f) => strtomsFields t.1 i f

/-- The decimal digits of a natural number, most significant first. -/
def decDigitsAux : Nat → Nat → CStr → CStr
  | 0, _, acc => acc
  | fuel + 1, n, acc =>
    if n < 10 then (48 + n) :: acc
    else decDigitsAux fuel (n / 10) ((48 + n % 10) :: acc)

/-- The decimal digits of a natural number, as `printf` writes them. -/
def decDigits (n : Nat) : CStr := decDigitsAux (n + 1) n []

/-- The conversion `%0<w>d` of `printf`: sign, then zeros up to the width `w`. -/
def fmtInt (w : Nat) (v : Int) : CStr :=
  let ds := decDigits v.natAbs
  if v < 0 then 45 :: (List.replicate (w - 1 - ds.length) 48 ++ ds)
  else List.replicate (w - ds.length) 48 ++ ds

/-- The function `mstostr`. -/
def mstostr (ms : Int) (style : Nat) : CStr :=
  let sign : CStr := if ms < 0 then [45] else []
  let ms0 := if ms < 0 then wrapLong (-ms) else ms
  let hh := wrapInt (Int.tdiv ms0 3600000)
  let ms1 := Int.tmod ms0 3600000
  let mm := wrapInt (Int.tdiv ms1 60000)
  let ms2 := Int.tmod ms1 60000
  let ss := wrapInt (Int.tdiv ms2 1000)
  let ms3 := Int.tmod ms2 1000
  match style with
  | 1 => sign ++ fmtInt 0 hh ++ [58] ++ fmtInt 2 mm ++ [58] ++ fmtInt 2 ss ++ [46]
          ++ fmtInt 2 (Int.tdiv ms3 10)
  | 2 => sign ++ fmtInt 2 hh ++ [58] ++ fmtInt 2 mm ++ [58] ++ fmtInt 2 ss ++ [58]
          ++ fmtInt 3 ms3
  | 3 => sign ++ fmtInt 2 hh ++ [46] ++ fmtInt 2 mm ++ [46] ++ fmtInt 2 ss ++ [46]
          ++ fmtInt 3 ms3
  | 4 => sign ++ fmtInt 2 hh ++ [45] ++ fmtInt 2 mm ++ [45] ++ fmtInt 2 ss ++ [45]
          ++ fmtInt 3 ms3
  | _ => sign ++ fmtInt 2 hh ++ [58] ++ fmtInt 2 mm ++ [58] ++ fmtInt 2 ss ++ [44]
          ++ fmtInt 3 ms3

/-! ## Transform: `tweaktime` -/

/-- The settings that `main` leaves in the globals.  `tm_scale` is `none` for the
scale `0.0` (disabled) and `some f` for any other scale, `f ms` being the C value
`(time_t)((double)ms * tm_scale)` of the statement `ms *= tm_scale`. -/
structure Config where
  tm_offset : Int
  tm_scale : Option (Int → Int)
  tm_range : Int × Int
  tm_chop : Int × Int
  tm_srtsn : Int

/-- The function `tweaktime`. -/
def tweaktime (cfg : Config) (ms : Int) : Int :=
  if cfg.tm_range.1 > -1 ∧ ms < cfg.tm_range.1 then ms
  else if cfg.tm_range.1 > -1 ∧ cfg.tm_range.2 > -1 ∧ ms > cfg.tm_range.2 then ms
  else
    let ms1 := if cfg.tm_offset ≠ 0 then wrapLong (ms + cfg.tm_offset) else ms
    match cfg.tm_scale with
    | none => ms1
    | some f => f ms1

/-! ## Line classification: `is_number` and `chop_filter` -/

/-- The value of a byte read through a (signed) `char`. -/
def schar (c : Nat) : Int := if c < 128 then (c : Int) else (c : Int) - 256

/-- The loop `while (isdigit(*s)) s++`. -/
def dropDigits : CStr → CStr
  | [] => []
  | c :: cs => if isdigit c then dropDigits cs else c :: cs

/-- The function `is_number`. -/
def is_number (s : CStr) : Bool :=
  match s with
  | [] => false
  | c :: cs =>
    if isdigit c then
      match dropDigits (c :: cs) with
      | [] => true
      | e :: _ => if schar e > 32 then false else true
    else false

/-- The literal `Dialogue:` of the `strncmp` calls. -/
def dialogueTag : CStr := cstr "Dialogue:"

/-- The test `!strncmp(s, tag, strlen(tag))`. -/
def startsWith (tag s : CStr) : Bool := tag.isPrefixOf s

/-- The two range tests that close each case of `chop_filter`: `true` when the
entry counter is inside the chop range, so that the line is skipped. -/
def chopBand (cfg : Config) (subidx : Int) : Bool :=
  if cfg.tm_chop.1 > 0 ∧ subidx < cfg.tm_chop.1 then false
  else if cfg.tm_chop.2 > 0 ∧ subidx > cfg.tm_chop.2 then false
  else true

/-- The function `chop_filter`: the returned flag, then the new values of
`*magic` and of the static counter `subidx`. -/
def chop_filter (cfg : Config) (s : CStr) (magic subidx : Int) : Bool × Int × Int :=
  if cfg.tm_chop.1 < 0 ∧ cfg.tm_chop.2 < 0 then (false, magic, subidx)
  else if magic = 0 then
    let subidx1 := if is_number s then wrapInt (subidx + 1) else subidx
    (chopBand cfg subidx1, magic, subidx1)
  else if magic = 1 then
    if startsWith dialogueTag s then
      (chopBand cfg (wrapInt (subidx + 1)), magic, wrapInt (subidx + 1))
    else (false, magic, subidx)
  else if magic > 0 then (false, magic, subidx)
  else if is_number s then
    (chopBand cfg (wrapInt (subidx + 1)), 0, wrapInt (subidx + 1))
  else if (strtoms s).ret ≠ -1 then
    (chopBand cfg (wrapInt (subidx + 1)), 0, wrapInt (subidx + 1))
  else if startsWith (cstr "[Events]") s then (false, 1, subidx)
  else if startsWith (cstr "[Script Info]") s then (false, 1, subidx)
  else if startsWith dialogueTag s then
    (chopBand cfg (wrapInt (subidx + 1)), 1, wrapInt (subidx + 1))
  else (false, magic, subidx)

/-! ## Retiming engine: the loop body of `retiming` -/

/-- The bytes that the first loop of the body copies: control characters and
blanks, `(*s > 0) && (*s <= 0x20)`. -/
def isLead (c : Nat) : Bool := decide (0 < schar c) && decide (schar c ≤ 32)

/-- A copy loop `while (!stop(*s)) fputc(*s++, fout)`: the bytes copied and the
text left, which starts at the stop byte.  The terminating NUL is no stop byte, so
on a text without one the loop reads beyond the line: `none`. -/
def copyUntil (stop : Nat → Bool) : CStr → Option (CStr × CStr)
  | [] => none
  | c :: cs =>
    if stop c then some ([], c :: cs)
    else
      match copyUntil stop cs with
      | none => none
      | some r => some (c :: r.1, r.2)

/-- The test `*s == ','`. -/
def isComma (c : Nat) : Bool := decide (c = 44)

/-- The variable `style` after a call of `strtoms`: kept when the call did not
write it (`none`: never written so far). -/
def newStyle (p : Parsed) (style : Option Nat) : Option Nat :=
  match p.style with
  | some k => some k
  | none => style

/-- The loop body of `retiming` after the chop filter, for the line `buf`, with the
current values of `srtsn` and `style`: the bytes written and the new values.
`none` when a copy loop leaves the line or `style` is used unwritten. -/
def retimeLine (cfg : Config) (srtsn : Int) (style : Option Nat) (buf : CStr) :
    Option (CStr × Int × Option Nat) :=
  let ws := buf.takeWhile isLead
  let s := buf.dropWhile isLead
  if startsWith dialogueTag s then
    match copyUntil isComma s with
    | none => none
    | some (pre1, s1) =>
      let s2 := s1.drop 1
      let p1 := strtoms s2
      match newStyle p1 style with
      | none => none
      | some k1 =>
        match copyUntil isComma (s2.drop p1.len) with
        | none => none
        | some (pre2, s4) =>
          let s5 := s4.drop 1
          let p2 := strtoms s5
          match newStyle p2 (some k1) with
          | none => none
          | some k2 =>
            some (ws ++ pre1 ++ s1.take 1 ++ mstostr (tweaktime cfg p1.ret) k1
                    ++ pre2 ++ s4.take 1 ++ mstostr (tweaktime cfg p2.ret) k2
                    ++ s5.drop p2.len,
                  srtsn, some k2)
  else
    let p1 := strtoms s
    if p1.ret ≠ -1 then
      match newStyle p1 style with
      | none => none
      | some k1 =>
        match copyUntil isdigit (s.drop p1.len) with
        | none => none
        | some (pre, s3) =>
          let p2 := strtoms s3
          match newStyle p2 (some k1) with
          | none => none
          | some k2 =>
            some (ws ++ mstostr (tweaktime cfg p1.ret) k1 ++ pre
                    ++ mstostr (tweaktime cfg p2.ret) k2 ++ s3.drop p2.len,
                  srtsn, some k2)
    else if srtsn > 0 ∧ is_number s = true then
      some (ws ++ fmtInt 0 srtsn ++ dropDigits s, wrapInt (srtsn + 1), newStyle p1 style)
    else some (ws ++ s, srtsn, newStyle p1 style)

/-- The variables that live across the lines of one call of `retiming`, and the
static counter `subidx` of `chop_filter`. -/
structure RState where
  magic : Int
  subidx : Int
  srtsn : Int
  style : Option Nat
deriving DecidableEq, Repr

/-- One turn of the `while` loop of `retiming` on a line read by `utf_readline`:
the chop filter, then the loop body. -/
def retimeStep (cfg : Config) (st : RState) (buf : CStr) : Option (CStr × RState) :=
  let c := chop_filter cfg buf st.magic st.subidx
  if c.1 then some ([], ⟨c.2.1, c.2.2, st.srtsn, st.style⟩)
  else
    match retimeLine cfg st.srtsn st.style buf with
    | none => none
    | some (out, srtsn, style) => some (out, ⟨c.2.1, c.2.2, srtsn, style⟩)

/-! ## Auxiliary notions for the proofs -/

/-- Whether the text starts with a decimal digit. -/
def startsDigit : CStr → Bool
  | [] => false
  | c :: _ => isdigit c

/-- The turns of the loop of `retiming` on given lines, one turn for each line:
what the loop does on a stream that `utf_readline` delivers as these lines. -/
def retimeLines (cfg : Config) : RState → List CStr → Option (CStr × RState)
  | st, [] => some ([], st)
  | st, l :: ls =>
    match retimeStep cfg st l with
    | none => none
    | some (o, st1) =>
      match retimeLines cfg st1 ls with
      | none => none
      | some (os, st2) => some (o ++ os, st2)

/-- The lines among given lines that `chop_filter` lets through, the format state
and the entry counter being threaded from line to line. -/
def chopKeep (cfg : Config) : Int → Int → List CStr → List CStr
  | _, _, [] => []
  | magic, subidx, l :: ls =>
    let c := chop_filter cfg l magic subidx
    if c.1 then chopKeep cfg c.2.1 c.2.2 ls else l :: chopKeep cfg c.2.1 c.2.2 ls

/-- A bare number line: a nonempty run of decimal digits, then white space only. -/
def bareNumber (s : CStr) : Bool := startsDigit s && (dropDigits s).all isspace

/-- A line as `fgets` hands it over whole: not empty, of at most 4088 bytes, each
below 256 and none of them NUL, with no newline before its last byte. -/
def IsLine (l : CStr) : Prop :=
  l ≠ [] ∧ l.length ≤ 4088 ∧ (∀ b ∈ l, b < 256 ∧ b ≠ 0) ∧ 10 ∉ l.dropLast

instance (l : CStr) : Decidable (IsLine l) := by unfold IsLine; infer_instance

/-- The lines of a stream: each is a line, and each but the last ends with a
newline. -/
def IsLines : List CStr → Prop
  | [] => True
  | l :: ls => IsLine l ∧ (ls ≠ [] → l.getLast? = some 10) ∧ IsLines ls

instance : (ls : List CStr) → Decidable (IsLines ls)
  | [] => isTrue trivial
  | l :: ls =>
    have := instDecidableIsLines ls
    by unfold IsLines; infer_instance

/-- The first bytes of the signatures of the table `bom_codepage`. -/
def bomFirst : List Nat := [0xEF, 0xFE, 0xFF, 0x00, 0x2B, 0xF7, 0xDD, 0x84]

/-- The value of a run of decimal digits. -/
def digitsVal (ds : CStr) : Int :=
  List.foldl (fun (a : Int) (c : Nat) => a * 10 + ((c : Int) - 48)) 0 ds

/-- The text is read by `%d` as the value `v`, whatever non-digit text follows,
and does not start with white space. -/
def IsField (t : CStr) (v : Int) : Prop :=
  (∀ rest, startsDigit rest = false → scanInt (t ++ rest) = some (v, rest)) ∧
  (∀ rest, skipSpace (t ++ rest) = t ++ rest)

/-- A nonempty run of decimal digits. -/
def IsDigits (ds : CStr) : Prop := ds ≠ [] ∧ ∀ c ∈ ds, isdigit c = true

instance (ds : CStr) : Decidable (IsDigits ds) := by unfold IsDigits; infer_instance

/-- Four field texts joined by the delimiters `d`, followed by `rest`. -/
def fieldsText (d : Nat × Nat × Nat) (t1 t2 t3 t4 rest : CStr) : CStr :=
  t1 ++ d.1 :: (t2 ++ d.2.1 :: (t3 ++ d.2.2 :: (t4 ++ rest)))

/-- The width of the hours and of the last field in the `sprintf` format of a style. -/
def styleWidths (k : Nat) : Nat × Nat := if k = 1 then (0, 2) else (2, 3)

/-- The last field that `mstostr` prints for the millisecond remainder `r`. -/
def lastField (k : Nat) (r : Int) : Int := if k = 1 then r / 10 else r

/-- The text of a decimal numeral: a minus sign when `neg`, then the digits. -/
def numText (neg : Bool) (ds : CStr) : CStr := if neg then 45 :: ds else ds

/-- The value of the decimal numeral `numText neg ds`. -/
def numVal (neg : Bool) (ds : CStr) : Int := if neg then -digitsVal ds else digitsVal ds

/-- The text `HH:MM:SS,mmm` of an SRT timestamp, each field zero-padded to its
width (two digits, three for the milliseconds). -/
def srtStamp (h m s f : Nat) : CStr :=
  fieldsText (58, 58, 44) (fmtInt 2 h) (fmtInt 2 m) (fmtInt 2 s) (fmtInt 3 f) []

/-- The text `H:MM:SS.cc` of an ASS timestamp, `c` being the centiseconds. -/
def assStamp (h m s c : Nat) : CStr :=
  fieldsText (58, 58, 46) (fmtInt 1 h) (fmtInt 2 m) (fmtInt 2 s) (fmtInt 2 c) []

/-- The milliseconds of the time `h:m:s` plus `f` milliseconds. -/
def stampMs (h m s f : Nat) : Int := (((h : Int) * 60 + m) * 60 + s) * 1000 + f

/-- An SRT entry: its number line, then the lines that follow it up to the next
entry (timing line, text lines, blank line). -/
abbrev Entry := CStr × List CStr

/-- The lines of an entry, in order. -/
def entryLines (e : Entry) : List CStr := e.1 :: e.2

/-- The lines of a stream of entries, in order. -/
def streamLines : List Entry → List CStr
  | [] => []
  | e :: es => entryLines e ++ streamLines es

/-- The lines of the entries whose position, counted from `i`, is outside `[a,b]`. -/
def outsideLines (a b : Int) : Int → List Entry → List CStr
  | _, [] => []
  | i, e :: es =>
    if a ≤ i ∧ i ≤ b then outsideLines a b (i + 1) es
    else entryLines e ++ outsideLines a b (i + 1) es

/-- A stream of four entries of one text line each. -/
def sampleEntries : List Entry :=
  [(cstr "1\n", [cstr "00:00:01,000 --> 00:00:02,000\n", cstr "one\n", cstr "\n"]),
   (cstr "2\n", [cstr "00:00:03,000 --> 00:00:04,000\n", cstr "two\n", cstr "\n"]),
   (cstr "3\n", [cstr "00:00:05,000 --> 00:00:06,000\n", cstr "three\n", cstr "\n"]),
   (cstr "4\n", [cstr "00:00:07,000 --> 00:00:08,000\n", cstr "four\n", cstr "\n"])]

/-- The lines of an SRT stream: a serial-number line (digits, then the line end), a
timing line `T1 --> T2<rest>` of two zero-padded timestamps, or any other line. -/
inductive SrtLine where
  | serial (ds eol : CStr)
  | timing (h1 m1 s1 f1 h2 m2 s2 f2 : Nat) (rest : CStr)
  | other (l : CStr)

/-- The bytes of a line. -/
def SrtLine.text : SrtLine → CStr
  | .serial ds eol => ds ++ eol
  | .timing h1 m1 s1 f1 h2 m2 s2 f2 rest =>
    srtStamp h1 m1 s1 f1 ++ (cstr " --> " ++ (srtStamp h2 m2 s2 f2 ++ rest))
  | .other l => l

/-- A serial-number line is a nonempty run of digits followed by white space only; a
timing line has its fields in range and a rest that does not start with a digit;
any other line, after its leading blanks, neither starts with `Dialogue:` nor with
a text that `strtoms` accepts, and `is_number` rejects it. -/
def SrtLine.WellFormed : SrtLine → Prop
  | .serial ds eol => IsDigits ds ∧ ∀ c ∈ eol, isspace c = true
  | .timing h1 m1 s1 f1 h2 m2 s2 f2 rest =>
    (h1 ≤ 596522 ∧ m1 ≤ 59 ∧ s1 ≤ 59 ∧ f1 ≤ 999) ∧
    (h2 ≤ 596522 ∧ m2 ≤ 59 ∧ s2 ≤ 59 ∧ f2 ≤ 999) ∧ startsDigit rest = false
  | .other l =>
    startsWith dialogueTag (l.dropWhile isLead) = false ∧
    (strtoms (l.dropWhile isLead)).ret = -1 ∧ is_number (l.dropWhile isLead) = false

/-- The number of serial-number lines of a stream. -/
def serialCount : List SrtLine → Nat
  | [] => 0
  | .serial _ _ :: ls => serialCount ls + 1
  | _ :: ls => serialCount ls

/-- The stream in which the serial-number lines carry the numbers `n`, `n+1`, ...
in place of their digits, every other byte being kept. -/
def renumbered : Int → List SrtLine → CStr
  | _, [] => []
  | n, .serial _ eol :: ls => fmtInt 0 n ++ eol ++ renumbered (n + 1) ls
  | n, l :: ls => l.text ++ renumbered n ls

instance (l : SrtLine) : Decidable l.WellFormed := by
  cases l <;> unfold SrtLine.WellFormed <;> infer_instance

/-- A stream of three entries with the serial numbers 1, 2, 3. -/
def sampleSrt : List SrtLine :=
  [.serial (cstr "1") (cstr "\n"), .timing 0 0 1 0 0 0 2 0 (cstr "\n"),
   .other (cstr "one\n"), .other (cstr "\n"),
   .serial (cstr "2") (cstr "\n"), .timing 0 0 3 0 0 0 4 0 (cstr "\n"),
   .other (cstr "two\n"), .other (cstr "\n"),
   .serial (cstr "3") (cstr "\n"), .timing 0 0 5 0 0 0 6 0 (cstr "\n"),
   .other (cstr "three\n"), .other (cstr "\n")]

/-! ## Encoding detector and line reader: `utf_bom_detect`, `utf_readline` -/

/-- An entry of the table `bom_codepage`; `magic` holds the four bytes of the array,
the signature padded with NUL. -/
structure CodePG where
  magic : List Nat
  magic_len : Nat
  iconv_name : String
  width : Nat
  endian : Nat
deriving DecidableEq, Repr

/-- The table `bom_codepage`: the nine fixed descriptors, then the user-defined
slot as it is initialised. -/
def bom_codepage : List CodePG :=
  [⟨[0xEF, 0xBB, 0xBF, 0], 3, "UTF-8", 1, 0⟩,
   ⟨[0xFE, 0xFF, 0, 0], 2, "UTF-16BE", 2, 1⟩,
   ⟨[0xFF, 0xFE, 0, 0], 2, "UTF-16LE", 2, 0⟩,
   ⟨[0x00, 0x00, 0xFE, 0xFF], 4, "UTF-32BE", 4, 1⟩,
   ⟨[0xFF, 0xFE, 0x00, 0x00], 4, "UTF-32LE", 4, 0⟩,
   ⟨[0x2B, 0x2F, 0x76, 0], 3, "UTF-7", 1, 0⟩,
   ⟨[0xF7, 0x64, 0x4C, 0], 3, "UTF-1", 1, 0⟩,
   ⟨[0xDD, 0x73, 0x66, 0x73], 4, "UTF-EBCDIC", 1, 0⟩,
   ⟨[0x84, 0x31, 0x95, 0x33], 4, "GB18030", 1, 0⟩,
   ⟨[0, 0, 0, 0], 0, "", 1, 0⟩]

/-- The macro `BOMLEN`: the number of fixed descriptors. -/
def BOMLEN : Nat := bom_codepage.length - 1

/-- The call `fgetc(fin)` on the unread bytes of a stream: the `int` returned, `-1`
(`EOF`) at the end of the stream, and the bytes left. -/
def fgetc : List Nat → Int × List Nat
  | [] => (-1, [])
  | b :: r => ((b : Int), r)

/-- The conversion `(char) c` of the `int` returned by `fgetc`, as a byte. -/
def toChar (c : Int) : Nat := (c % 256).toNat

/-- The outcome of the loop over the table for the bytes read so far. -/
inductive BomScan where
  | full (k : Nat)
  | partialMatch
  | noMatch
deriving DecidableEq, Repr

/-- The loop `for (k = 0; k < BOMLEN; k++)` of `utf_bom_detect` from the index `k`
on: the first entry whose array starts with the `n` bytes of `buf` decides, a
match of fewer than `magic_len` bytes being partial. -/
def scanTable (buf : List Nat) : Nat → List CodePG → BomScan
  | _, [] => .noMatch
  | k, e :: es =>
    if e.magic.take buf.length = buf then
      if e.magic_len > buf.length then .partialMatch else .full k
    else scanTable buf (k + 1) es

/-- The loop `for (i = 0; i < 4; i++)` of `utf_bom_detect` with `fuel` turns left:
the value returned, the bytes left in the stream, and the bytes written to
`bom_overflow` (`none`: the buffer is not touched). -/
def detectLoop : Nat → List Nat → List Nat → Int × List Nat × Option (List Nat)
  | 0, _, fin => (-1, fin, none)
  | fuel + 1, buf, fin =>
    let c := fgetc fin
    let buf1 := buf ++ [toChar c.1]
    match scanTable buf1 0 (bom_codepage.take BOMLEN) with
    | .full k => ((k : Int), c.2, none)
    | .partialMatch => detectLoop fuel buf1 c.2
    | .noMatch => (-1, c.2, some buf1)

/-- The function `utf_bom_detect` on the unread bytes of a stream. -/
def utf_bom_detect (fin : List Nat) : Int × List Nat × Option (List Nat) :=
  detectLoop 4 [] fin

/-- The bytes that `fgets` stores when it may read `n` more bytes: up to and
including the first newline, and the bytes left in the stream. -/
def fgetsAux : Nat → List Nat → List Nat × List Nat
  | 0, fin => ([], fin)
  | _, [] => ([], [])
  | n + 1, b :: r =>
    if b = 10 then ([b], r)
    else ((b :: (fgetsAux n r).1), (fgetsAux n r).2)

/-- The call `fgets(buf, size, fin)`: `none` for `NULL` (end of the stream, nothing
read), else the bytes stored and the bytes left. -/
def fgets (size : Nat) (fin : List Nat) : Option (List Nat × List Nat) :=
  match fin with
  | [] => if size ≤ 1 then some ([], []) else none
  | _ => some (fgetsAux (size - 1) fin)

/-- The C string held by a buffer: its bytes before the first NUL. -/
def cut (l : List Nat) : CStr := l.takeWhile (fun b => decide (b ≠ 0))

/-- What `utf_readline` hands back: the value returned, the C string in `buf`, the
bytes left in the stream and the bytes left in `bom_overflow`. -/
structure ReadLine where
  ret : Int
  buf : CStr
  fin : List Nat
  overflow : List Nat
deriving DecidableEq, Repr

/-- The width of the code units of the codepage `utf_index`. -/
def cpWidth (utf_index : Int) : Nat :=
  match bom_codepage[utf_index.toNat]? with
  | some e => e.width
  | none => 1

/-- The function `utf_readline` in its branch for one-byte code units
(`utf_index < 0` or a codepage of width 1) without converter (`utf_iconv` is
`(iconv_t) -1`), `overflow` being the bytes held by `bom_overflow`; `none` in the
other branches, which go through `iconv`. -/
def utf_readline (utf_index : Int) (overflow fin : List Nat) : Option ReadLine :=
  if utf_index < 0 ∨ cpWidth utf_index = 1 then
    if overflow ≠ [] then
      if overflow.getLast? = some 10 then
        some ⟨(overflow.length : Int), cut overflow, fin, []⟩
      else
        match fgets (4090 - overflow.length - 1) fin with
        | none => some ⟨((cut overflow).length : Int), cut overflow, fin, []⟩
        | some r => some ⟨((cut (overflow ++ r.1)).length : Int), cut (overflow ++ r.1), r.2, []⟩
    else
      match fgets 4089 fin with
      | none => some ⟨-1, [], fin, []⟩
      | some r => some ⟨((cut r.1).length : Int), cut r.1, r.2, []⟩
  else none

/-! ## The function `retiming` on a stream -/

/-- The static variables that a call of `retiming` reads and leaves behind:
`utf_index`, the bytes held by `bom_overflow` (none when `bom_overflow[0]` is 0),
and the entry counter `subidx` of `chop_filter`.  The converter `utf_iconv` is
`(iconv_t) -1` throughout, as it is until `utf_open` opens one. -/
structure Statics where
  utf_index : Int
  bom_overflow : List Nat
  subidx : Int
deriving DecidableEq, Repr

/-- What `utf_open` leaves: the new `utf_index`, the bytes left in the stream, the
bytes held by `bom_overflow` and the bytes written to `fout`. -/
structure Opened where
  utf_index : Int
  fin : List Nat
  bom_overflow : List Nat
  written : List Nat
deriving DecidableEq, Repr

/-- The function `utf_open` for the output codepage `cp`; `none` when the codepage
found differs from `cp`, where the code goes on with the result of `iconv_open`. -/
def utf_open (utf_index : Int) (bom_overflow fin : List Nat) (cp : Int) : Option Opened :=
  let d := utf_bom_detect fin
  let idx := if d.1 ≥ 0 then d.1 else utf_index
  let ovf := match d.2.2 with
    | some b => b
    | none => bom_overflow
  if idx < 0 then some ⟨idx, d.2.1, ovf, []⟩
  else if idx ≠ cp then none
  else if cp > 0 ∧ cp < BOMLEN then
    match bom_codepage[cp.toNat]? with
    | some e => some ⟨idx, d.2.1, ovf, e.magic.take e.magic_len⟩
    | none => none
  else some ⟨idx, d.2.1, ovf, []⟩

/-- The `while` loop of `retiming`: `utf_readline` reads a line, and the loop goes
on while the value it returns is positive, so it ends at the end of the stream and
at a line that starts with a NUL.  `fuel` bounds the number of turns; each turn
takes a byte at least from the overflow buffer or from the stream, so that
`overflow.length + fin.length + 1` turns are enough (`retimeLoop_fuel`).  The
result: the bytes written, the state, the overflow buffer and the unread bytes. -/
def retimeLoop (cfg : Config) (utf_index : Int) :
    Nat → RState → List Nat → List Nat → Option (CStr × RState × List Nat × List Nat)
  | 0, _, _, _ => none
  | fuel + 1, st, overflow, fin =>
    match utf_readline utf_index overflow fin with
    | none => none
    | some r =>
      if r.ret > 0 then
        match retimeStep cfg st r.buf with
        | none => none
        | some (o, st1) =>
          match retimeLoop cfg utf_index fuel st1 r.overflow r.fin with
          | none => none
          | some (os, st2, ovf, rest) => some (o ++ os, st2, ovf, rest)
      else some ([], st, r.overflow, r.fin)

/-- The function `retiming` on the bytes of the stream `fin`, the static variables
holding `g` at the call: the bytes written to `fout` and the static variables
afterwards.  `none` when a converter is needed, a copy loop leaves its line or
`style` is used unwritten. -/
def retiming (cfg : Config) (g : Statics) (fin : List Nat) : Option (CStr × Statics) :=
  match utf_open g.utf_index g.bom_overflow fin 0 with
  | none => none
  | some o =>
    match retimeLoop cfg o.utf_index (o.bom_overflow.length + o.fin.length + 1)
        ⟨-1, g.subidx, cfg.tm_srtsn, none⟩ o.bom_overflow o.fin with
    | none => none
    | some (out, st, ovf, _) => some (o.written ++ out, ⟨o.utf_index, ovf, st.subidx⟩)

/-! ## Expression parsers: `arg_offset` and `arg_scale` -/

/-- The call `strchr(s, c)` for a byte `c` other than NUL: the text from the first
`c` on, `none` for `NULL`. -/
def strchr (c : Nat) : CStr → Option CStr
  | [] => none
  | x :: xs => if x = c then some (x :: xs) else strchr c xs

/-- The value of a byte as a digit of `strtol`: `0`-`9`, then the letters. -/
def digitValue (c : Nat) : Option Nat :=
  if 48 ≤ c ∧ c ≤ 57 then some (c - 48)
  else if 97 ≤ c ∧ c ≤ 122 then some (c - 87)
  else if 65 ≤ c ∧ c ≤ 90 then some (c - 55)
  else none

/-- Whether the byte is a digit of the base. -/
def isBaseDigit (base c : Nat) : Bool :=
  match digitValue c with
  | some v => decide (v < base)
  | none => false

/-- The run of digits of the base at the head of the text, folded into `acc`. -/
def scanBase (base : Nat) : Int → CStr → Int × CStr
  | acc, [] => (acc, [])
  | acc, c :: cs =>
    match digitValue c with
    | some v => if v < base then scanBase base (acc * base + v) cs else (acc, c :: cs)
    | none => (acc, c :: cs)

/-- The call `strtol(s, &endp, 0)`: the value and the text at `endp`.  White space
and a sign are skipped, `0x` before a hexadecimal digit selects base 16, another
leading `0` base 8; without any digit the value is 0 and `endp` is `s`. -/
def strtol0 (s : CStr) : Int × CStr :=
  let p := scanSign (skipSpace s)
  let r : Option (Int × CStr) :=
    match p.2 with
    | [] => none
    | c :: cs =>
      if c = 48 then
        match cs with
        | x :: h :: t =>
          if (x = 120 ∨ x = 88) ∧ isBaseDigit 16 h = true then some (scanBase 16 0 (h :: t))
          else some (scanBase 8 0 (c :: cs))
        | _ => some (scanBase 8 0 (c :: cs))
      else if isBaseDigit 10 c then some (scanBase 10 0 (c :: cs))
      else none
  match r with
  | none => (0, s)
  | some q => (clampLong (if p.1 then -q.1 else q.1), q.2)

/-- The function `arg_offset`. -/
def arg_offset (s : CStr) : Int :=
  match strchr 47 s with
  | some _ => -1
  | none =>
    match strchr 45 (s.drop 1) with
    | some _ =>
      let s1 := s.drop 1
      if (strtoms s1).ret = -1 then -1
      else
        match strchr 45 s1 with
        | none => -1
        | some t =>
          if (strtoms (t.drop 1)).ret = -1 then -1
          else wrapLong ((strtoms s1).ret - (strtoms (t.drop 1)).ret)
    | none =>
      if (strtoms s).ret ≠ -1 then (strtoms s).ret
      else if (strtol0 s).2 = [] then (strtol0 s).1
      else -1

/-- The `double` returned by `arg_scale`, kept as the expression that computes it:
`0.0`, the constant of the entry `i` of `srtbl`, the quotient
`(double)mf / (double)mt` of two millisecond values, or `strtod` of a text. -/
inductive Scale where
  | zero
  | fact (i : Nat)
  | quot (mf mt : Int)
  | real (text : CStr)
deriving DecidableEq, Repr

/-- The identifiers of the table `srtbl`, in order. -/
def srtbl : List CStr :=
  [cstr "N-P", cstr "P-N", cstr "N-C", cstr "C-N", cstr "P-C", cstr "C-P"]

/-- The loop over `srtbl`: the index of the entry whose identifier is `s`. -/
def lookupRate (s : CStr) : Nat → List CStr → Option Nat
  | _, [] => none
  | i, x :: xs => if s = x then some i else lookupRate s (i + 1) xs

/-- The function `arg_scale`; `strtodEnd s` is the text at which `strtod(s, &endp)`
stops. -/
def arg_scale (strtodEnd : CStr → CStr) (s0 : CStr) : Scale :=
  let s := (takeSign s0).2
  match lookupRate s 0 srtbl with
  | some i => .fact i
  | none =>
    match strchr 47 s with
    | some t =>
      if (strtoms s).ret = -1 then .zero
      else if (strtoms (t.drop 1)).ret = -1 then .zero
      else .quot (strtoms s).ret (strtoms (t.drop 1)).ret
    | none =>
      match strchr 46 s with
      | some _ => if strtodEnd s = [] then .real s else .zero
      | none => .zero

/-! ## Machine integers, digits and the `sscanf` directives -/

theorem wrapInt_of_fits {x : Int} (h : fitsInt x) : wrapInt x = x := by
  unfold fitsInt at h
  unfold wrapInt
  omega

theorem wrapLong_of_fits {x : Int} (h : fitsLong x) : wrapLong x = x := by
  unfold fitsLong at h
  unfold wrapLong
  omega

theorem clampLong_of_fits {x : Int} (h : fitsLong x) : clampLong x = x := by
  unfold fitsLong at h
  unfold clampLong
  split
  · omega
  · split
    · omega
    · rfl

theorem wrapInt_add_wrapInt (a b : Int) : wrapInt (a + wrapInt b) = wrapInt (a + b) := by
  unfold wrapInt
  omega

theorem isdigit_iff (c : Nat) : isdigit c = true ↔ 48 ≤ c ∧ c ≤ 57 := by
  simp [isdigit]

theorem isspace_of_isdigit {c : Nat} (h : isdigit c = true) : isspace c = false := by
  rw [isdigit_iff] at h
  simp [isspace]
  omega

theorem scanDigits_append (ds rest : CStr) (h : ∀ c ∈ ds, isdigit c = true) (a : Int) :
    scanDigits a (ds ++ rest)
      = scanDigits (List.foldl (fun (a : Int) (c : Nat) => a * 10 + ((c : Int) - 48)) a ds) rest := by
  induction ds generalizing a with
  | nil => rfl
  | cons c cs ih =>
    have hc : isdigit c = true := h c (List.mem_cons_self _ _)
    have hcs : ∀ x ∈ cs, isdigit x = true := fun x hx => h x (List.mem_cons_of_mem _ hx)
    simp only [List.cons_append, scanDigits, hc, if_true, List.foldl_cons]
    exact ih hcs _

theorem scanDigits_stop (rest : CStr) (h : startsDigit rest = false) (a : Int) :
    scanDigits a rest = (a, rest) := by
  cases rest with
  | nil => rfl
  | cons c cs =>
    simp only [startsDigit] at h
    simp [scanDigits, h]

theorem skipSpace_stop (s : CStr) (h : ∀ c ∈ s.head?, isspace c = false) :
    skipSpace s = s := by
  cases s with
  | nil => rfl
  | cons c cs =>
    have hc : isspace c = false := h c (by simp)
    simp [skipSpace, hc]

theorem scanSign_other (c : Nat) (r : CStr) (h1 : c ≠ 43) (h2 : c ≠ 45) :
    scanSign (c :: r) = (false, c :: r) := by
  unfold scanSign
  split
  · simp_all
  · simp_all
  · rfl

theorem scanDigits_run (ds rest : CStr) (hd : ∀ c ∈ ds, isdigit c = true)
    (hr : startsDigit rest = false) :
    scanDigits 0 (ds ++ rest) = (digitsVal ds, rest) := by
  rw [scanDigits_append ds rest hd 0, scanDigits_stop rest hr]
  rfl

theorem skipSpace_cons {c : Nat} (cs : CStr) (h : isspace c = false) :
    skipSpace (c :: cs) = c :: cs := by
  simp [skipSpace, h]

theorem scanInt_digits (ds rest : CStr) (hne : ds ≠ []) (hd : ∀ c ∈ ds, isdigit c = true)
    (hr : startsDigit rest = false) :
    scanInt (ds ++ rest) = some (wrapInt (clampLong (digitsVal ds)), rest) := by
  have hall := scanDigits_run ds rest hd hr
  cases ds with
  | nil => exact absurd rfl hne
  | cons c cs =>
    have hc : isdigit c = true := hd c (List.mem_cons_self _ _)
    have hsp : isspace c = false := isspace_of_isdigit hc
    have h48 := (isdigit_iff c).1 hc
    have hsign : scanSign (c :: (cs ++ rest)) = (false, c :: (cs ++ rest)) :=
      scanSign_other c _ (by omega) (by omega)
    simp only [List.cons_append] at hall
    unfold scanInt
    rw [List.cons_append, skipSpace_cons _ hsp, hsign]
    simp only [hc, if_true, hall]
    rfl

theorem scanInt_neg_digits (ds rest : CStr) (hne : ds ≠ []) (hd : ∀ c ∈ ds, isdigit c = true)
    (hr : startsDigit rest = false) :
    scanInt (45 :: (ds ++ rest)) = some (wrapInt (clampLong (-digitsVal ds)), rest) := by
  have hall := scanDigits_run ds rest hd hr
  cases ds with
  | nil => exact absurd rfl hne
  | cons c cs =>
    have hc : isdigit c = true := hd c (List.mem_cons_self _ _)
    simp only [List.cons_append] at hall
    have h45 : isspace 45 = false := by decide
    have hsign : scanSign (45 :: c :: (cs ++ rest)) = (true, c :: (cs ++ rest)) := rfl
    unfold scanInt
    rw [List.cons_append, skipSpace_cons _ h45, hsign]
    simp only [hc, if_true, hall]

theorem isField_digits {ds : CStr} (h : IsDigits ds) :
    IsField ds (wrapInt (clampLong (digitsVal ds))) := by
  refine ⟨fun rest hr => scanInt_digits ds rest h.1 h.2 hr, fun rest => ?_⟩
  obtain ⟨hne, hd⟩ := h
  cases ds with
  | nil => exact absurd rfl hne
  | cons c cs =>
    exact skipSpace_cons _ (isspace_of_isdigit (hd c (List.mem_cons_self _ _)))

theorem isField_neg_digits {ds : CStr} (h : IsDigits ds) :
    IsField (45 :: ds) (wrapInt (clampLong (-digitsVal ds))) := by
  refine ⟨fun rest hr => scanInt_neg_digits ds rest h.1 h.2 hr, fun rest => ?_⟩
  exact skipSpace_cons _ (by decide)

theorem expect_lit (e d : Nat) (t : CStr) (hd : isspace d = false)
    (ht : skipSpace t = t) :
    expect e (d :: t) = if d = e then some t else none := by
  unfold expect
  rw [skipSpace_cons _ hd]
  simp only [ht]

theorem startsDigit_cons {d : Nat} (t : CStr) (h : isdigit d = false) :
    startsDigit (d :: t) = false := by
  simp [startsDigit, h]

theorem fieldsText_length (d : Nat × Nat × Nat) (t1 t2 t3 t4 rest : CStr) :
    (fieldsText d t1 t2 t3 t4 rest).length - rest.length
      = t1.length + t2.length + t3.length + t4.length + 3 := by
  simp [fieldsText]
  omega

theorem sscanf4_fieldsText (e d : Nat × Nat × Nat) (t1 t2 t3 t4 rest : CStr)
    (v1 v2 v3 v4 : Int)
    (hd1 : isdigit d.1 = false ∧ isspace d.1 = false)
    (hd2 : isdigit d.2.1 = false ∧ isspace d.2.1 = false)
    (hd3 : isdigit d.2.2 = false ∧ isspace d.2.2 = false)
    (h1 : IsField t1 v1) (h2 : IsField t2 v2) (h3 : IsField t3 v3) (h4 : IsField t4 v4)
    (hr : startsDigit rest = false) :
    sscanf4 e (fieldsText d t1 t2 t3 t4 rest)
      = if d.1 = e.1 ∧ d.2.1 = e.2.1 ∧ d.2.2 = e.2.2 then
          some ⟨v1, v2, v3, v4, t1.length + t2.length + t3.length + t4.length + 3⟩
        else none := by
  have hlen := fieldsText_length d t1 t2 t3 t4 rest
  unfold fieldsText at hlen
  unfold sscanf4 fieldsText
  rw [h1.1 _ (startsDigit_cons _ hd1.1)]
  simp only []
  rw [expect_lit _ _ _ hd1.2 (h2.2 _)]
  by_cases c1 : d.1 = e.1
  · simp only [c1, if_true, true_and]
    rw [h2.1 _ (startsDigit_cons _ hd2.1)]
    simp only []
    rw [expect_lit _ _ _ hd2.2 (h3.2 _)]
    by_cases c2 : d.2.1 = e.2.1
    · simp only [c2, if_true, true_and]
      rw [h3.1 _ (startsDigit_cons _ hd3.1)]
      simp only []
      rw [expect_lit _ _ _ hd3.2 (h4.2 _)]
      by_cases c3 : d.2.2 = e.2.2
      · simp only [c3, if_true]
        rw [h4.1 _ hr]
        rw [c1, c2, c3] at hlen
        simp only [hlen]
      · simp only [c3, if_false]
    · simp only [c2, if_false, false_and]
  · simp only [c1, if_false, false_and]

theorem decDigitsAux_append (fuel n : Nat) (acc : CStr) :
    decDigitsAux fuel n acc = decDigitsAux fuel n [] ++ acc := by
  induction fuel generalizing n acc with
  | zero => rfl
  | succ fuel ih =>
    unfold decDigitsAux
    split
    · rfl
    · rw [ih (n / 10) ((48 + n % 10) :: acc), ih (n / 10) [48 + n % 10]]
      simp

theorem decDigitsAux_isdigit (fuel n : Nat) :
    ∀ c ∈ decDigitsAux fuel n [], isdigit c = true := by
  induction fuel generalizing n with
  | zero => intro c hc; simp [decDigitsAux] at hc
  | succ fuel ih =>
    intro c hc
    unfold decDigitsAux at hc
    split at hc
    · simp only [List.mem_singleton] at hc
      rw [isdigit_iff]
      omega
    · rw [decDigitsAux_append] at hc
      rcases List.mem_append.1 hc with h | h
      · exact ih _ c h
      · simp only [List.mem_singleton] at h
        rw [isdigit_iff]
        omega

theorem decDigitsAux_ne_nil (fuel n : Nat) : decDigitsAux (fuel + 1) n [] ≠ [] := by
  unfold decDigitsAux
  split
  · simp
  · rw [decDigitsAux_append]
    simp

theorem digitsVal_append_singleton (ds : CStr) (c : Nat) :
    digitsVal (ds ++ [c]) = digitsVal ds * 10 + ((c : Int) - 48) := by
  simp [digitsVal, List.foldl_append]

theorem digitsVal_decDigitsAux (fuel n : Nat) (h : n < fuel) :
    digitsVal (decDigitsAux fuel n []) = n := by
  induction fuel generalizing n with
  | zero => omega
  | succ fuel ih =>
    unfold decDigitsAux
    split
    · simp [digitsVal]
    · rw [decDigitsAux_append, digitsVal_append_singleton, ih (n / 10) (by omega)]
      push_cast
      omega

theorem digitsVal_zeros (k : Nat) (ds : CStr) :
    digitsVal (List.replicate k 48 ++ ds) = digitsVal ds := by
  unfold digitsVal
  rw [List.foldl_append]
  congr 1
  induction k with
  | zero => rfl
  | succ k ih => simp [List.replicate_succ, ih]

theorem isDigits_decDigits (n : Nat) : IsDigits (decDigits n) :=
  ⟨decDigitsAux_ne_nil n n, decDigitsAux_isdigit (n + 1) n⟩

theorem digitsVal_decDigits (n : Nat) : digitsVal (decDigits n) = n :=
  digitsVal_decDigitsAux (n + 1) n (by omega)

theorem isDigits_zeros {ds : CStr} (k : Nat) (h : IsDigits ds) :
    IsDigits (List.replicate k 48 ++ ds) := by
  refine ⟨by simp [h.1], fun c hc => ?_⟩
  rcases List.mem_append.1 hc with h' | h'
  · rw [(List.mem_replicate.1 h').2]
    decide
  · exact h.2 c h'

theorem fmtInt_nonneg (w : Nat) {v : Int} (h : 0 ≤ v) :
    fmtInt w v = List.replicate (w - (decDigits v.natAbs).length) 48 ++ decDigits v.natAbs := by
  unfold fmtInt
  simp only [not_lt.2 h, if_false]

theorem isField_fmtInt (w : Nat) {v : Int} (h0 : 0 ≤ v) (h1 : v ≤ 2147483647) :
    IsField (fmtInt w v) v := by
  rw [fmtInt_nonneg w h0]
  have hd := isDigits_zeros (w - (decDigits v.natAbs).length) (isDigits_decDigits v.natAbs)
  have hv : digitsVal (List.replicate (w - (decDigits v.natAbs).length) 48
      ++ decDigits v.natAbs) = v := by
    rw [digitsVal_zeros, digitsVal_decDigits]
    omega
  have := isField_digits hd
  rw [hv, clampLong_of_fits (by unfold fitsLong; omega),
    wrapInt_of_fits (by unfold fitsInt; omega)] at this
  exact this

theorem startsDigit_fmtInt (w : Nat) {v : Int} (h0 : 0 ≤ v) (rest : CStr) :
    startsDigit (fmtInt w v ++ rest) = true := by
  rw [fmtInt_nonneg w h0]
  have hd := isDigits_zeros (w - (decDigits v.natAbs).length) (isDigits_decDigits v.natAbs)
  generalize List.replicate (w - (decDigits v.natAbs).length) 48 ++ decDigits v.natAbs = ds at hd
  obtain ⟨hne, hall⟩ := hd
  cases ds with
  | nil => exact absurd rfl hne
  | cons c cs => exact hall c (List.mem_cons_self _ _)

theorem firstMatch_fieldsText (k : Nat) (d : Nat × Nat × Nat) (hk : pattern[k]? = some d)
    (t1 t2 t3 t4 rest : CStr) (v1 v2 v3 v4 : Int)
    (h1 : IsField t1 v1) (h2 : IsField t2 v2) (h3 : IsField t3 v3) (h4 : IsField t4 v4)
    (hr : startsDigit rest = false) :
    firstMatch (fieldsText d t1 t2 t3 t4 rest) 0 pattern
      = some (k, ⟨v1, v2, v3, v4, t1.length + t2.length + t3.length + t4.length + 3⟩) := by
  have hlt : k < 5 := by
    by_contra hge
    have : pattern[k]? = none := by
      apply List.getElem?_eq_none
      simp [pattern]
      omega
    rw [this] at hk
    exact Option.noConfusion hk
  have H : ∀ e, isdigit d.1 = false ∧ isspace d.1 = false →
      isdigit d.2.1 = false ∧ isspace d.2.1 = false →
      isdigit d.2.2 = false ∧ isspace d.2.2 = false →
      sscanf4 e (fieldsText d t1 t2 t3 t4 rest)
        = if d.1 = e.1 ∧ d.2.1 = e.2.1 ∧ d.2.2 = e.2.2 then
            some ⟨v1, v2, v3, v4, t1.length + t2.length + t3.length + t4.length + 3⟩
          else none :=
    fun e a b c => sscanf4_fieldsText e d t1 t2 t3 t4 rest v1 v2 v3 v4 a b c h1 h2 h3 h4 hr
  interval_cases k <;> simp [pattern] at hk <;> subst hk <;>
    simp [pattern, firstMatch, H _ (by decide) (by decide) (by decide)]


theorem takeSign_of_startsDigit {s : CStr} (h : startsDigit s = true) : takeSign s = (0, s) := by
  cases s with
  | nil => rfl
  | cons c cs =>
    simp only [startsDigit, isdigit_iff] at h
    unfold takeSign
    split
    · simp_all
    · simp_all
    · rfl

theorem strtoms_fieldsText (k : Nat) (d : Nat × Nat × Nat) (hk : pattern[k]? = some d)
    (t1 t2 t3 t4 rest : CStr) (v1 v2 v3 v4 : Int)
    (h1 : IsField t1 v1) (h2 : IsField t2 v2) (h3 : IsField t3 v3) (h4 : IsField t4 v4)
    (hs : ∀ r, startsDigit (t1 ++ r) = true) (hr : startsDigit rest = false) :
    strtoms (fieldsText d t1 t2 t3 t4 rest)
      = strtomsFields 0 k ⟨v1, v2, v3, v4, t1.length + t2.length + t3.length + t4.length + 3⟩ := by
  unfold strtoms
  rw [takeSign_of_startsDigit (by unfold fieldsText; exact hs _)]
  simp only [firstMatch_fieldsText k d hk t1 t2 t3 t4 rest v1 v2 v3 v4 h1 h2 h3 h4 hr]

theorem strtoms_minus_fieldsText (k : Nat) (d : Nat × Nat × Nat) (hk : pattern[k]? = some d)
    (t1 t2 t3 t4 rest : CStr) (v1 v2 v3 v4 : Int)
    (h1 : IsField t1 v1) (h2 : IsField t2 v2) (h3 : IsField t3 v3) (h4 : IsField t4 v4)
    (hr : startsDigit rest = false) :
    strtoms (45 :: fieldsText d t1 t2 t3 t4 rest)
      = strtomsFields 45 k ⟨v1, v2, v3, v4, t1.length + t2.length + t3.length + t4.length + 3⟩ := by
  unfold strtoms
  simp only [takeSign, firstMatch_fieldsText k d hk t1 t2 t3 t4 rest v1 v2 v3 v4 h1 h2 h3 h4 hr]

theorem strtoms_plus_fieldsText (k : Nat) (d : Nat × Nat × Nat) (hk : pattern[k]? = some d)
    (t1 t2 t3 t4 rest : CStr) (v1 v2 v3 v4 : Int)
    (h1 : IsField t1 v1) (h2 : IsField t2 v2) (h3 : IsField t3 v3) (h4 : IsField t4 v4)
    (hr : startsDigit rest = false) :
    strtoms (43 :: fieldsText d t1 t2 t3 t4 rest)
      = strtomsFields 43 k ⟨v1, v2, v3, v4, t1.length + t2.length + t3.length + t4.length + 3⟩ := by
  unfold strtoms
  simp only [takeSign, firstMatch_fieldsText k d hk t1 t2 t3 t4 rest v1 v2 v3 v4 h1 h2 h3 h4 hr]

/-- The seconds and milliseconds that `strtoms` computes when nothing overflows. -/
theorem strtomsValue_eq (type : Nat) (f : Scan4) (msec : Int)
    (hfit : fitsInt ((f.hour * 60 + f.min) * 60 + f.sec)) (hm : 0 ≤ msec ∧ msec ≤ 999) :
    strtomsValue type f msec
      = if type = 45 then -(((f.hour * 60 + f.min) * 60 + f.sec) * 1000 + msec)
        else ((f.hour * 60 + f.min) * 60 + f.sec) * 1000 + msec := by
  unfold fitsInt at hfit
  have hsec : wrapInt (f.sec + wrapInt (wrapInt (f.hour * 3600) + wrapInt (f.min * 60)))
      = (f.hour * 60 + f.min) * 60 + f.sec := by
    unfold wrapInt
    omega
  unfold strtomsValue
  simp only [hsec]
  generalize (f.hour * 60 + f.min) * 60 + f.sec = t at hfit
  split <;> (unfold wrapLong; omega)

theorem strtomsFields_eq (type k : Nat) (f : Scan4)
    (hmin : 0 ≤ f.min ∧ f.min ≤ 59) (hsec : 0 ≤ f.sec ∧ f.sec ≤ 59)
    (hms : 0 ≤ f.msec ∧ f.msec ≤ (if k = 1 then 99 else 999))
    (hfit : fitsInt ((f.hour * 60 + f.min) * 60 + f.sec)) :
    strtomsFields type k f
      = ⟨if type = 45 then
            -(((f.hour * 60 + f.min) * 60 + f.sec) * 1000
                + (if k = 1 then 10 * f.msec else f.msec))
          else ((f.hour * 60 + f.min) * 60 + f.sec) * 1000
                + (if k = 1 then 10 * f.msec else f.msec),
         f.num, some k⟩ := by
  unfold strtomsFields
  have a1 : ¬ (f.min < 0 ∨ f.min > 59) := by omega
  have a2 : ¬ (f.sec < 0 ∨ f.sec > 59) := by omega
  simp only [a1, a2, if_false]
  by_cases hk : k = 1
  · simp only [hk, if_true] at hms ⊢
    have a3 : ¬ (f.msec < 0 ∨ f.msec > 99) := by omega
    have a4 : wrapInt (f.msec * 10) = 10 * f.msec := by unfold wrapInt; omega
    simp only [a3, if_false, a4]
    rw [strtomsValue_eq type f _ hfit (by omega)]
  · simp only [hk, if_false] at hms ⊢
    have a3 : ¬ (f.msec < 0 ∨ f.msec > 999) := by omega
    simp only [a3, if_false]
    rw [strtomsValue_eq type f _ hfit (by omega)]


theorem mstostr_nonneg (a : Int) (k : Nat) (rest : CStr) (d : Nat × Nat × Nat)
    (h0 : 0 ≤ a) (hmax : a / 3600000 ≤ 2147483647) (hk : pattern[k]? = some d) :
    mstostr a k ++ rest
      = fieldsText d (fmtInt (styleWidths k).1 (a / 3600000))
          (fmtInt 2 (a % 3600000 / 60000)) (fmtInt 2 (a % 60000 / 1000))
          (fmtInt (styleWidths k).2 (lastField k (a % 1000))) rest := by
  have e1 : Int.tdiv a 3600000 = a / 3600000 := Int.tdiv_eq_ediv h0 (by omega)
  have e2 : Int.tmod a 3600000 = a % 3600000 := Int.tmod_eq_emod h0 (by omega)
  have e3 : Int.tdiv (a % 3600000) 60000 = a % 3600000 / 60000 :=
    Int.tdiv_eq_ediv (by omega) (by omega)
  have e4 : Int.tmod (a % 3600000) 60000 = a % 60000 := by
    rw [Int.tmod_eq_emod (by omega) (by omega)]
    omega
  have e5 : Int.tdiv (a % 60000) 1000 = a % 60000 / 1000 :=
    Int.tdiv_eq_ediv (by omega) (by omega)
  have e6 : Int.tmod (a % 60000) 1000 = a % 1000 := by
    rw [Int.tmod_eq_emod (by omega) (by omega)]
    omega
  have e7 : Int.tdiv (a % 1000) 10 = a % 1000 / 10 :=
    Int.tdiv_eq_ediv (by omega) (by omega)
  have w1 : wrapInt (a / 3600000) = a / 3600000 :=
    wrapInt_of_fits (by unfold fitsInt; omega)
  have w2 : wrapInt (a % 3600000 / 60000) = a % 3600000 / 60000 :=
    wrapInt_of_fits (by unfold fitsInt; omega)
  have w3 : wrapInt (a % 60000 / 1000) = a % 60000 / 1000 :=
    wrapInt_of_fits (by unfold fitsInt; omega)
  have hlt : k < 5 := by
    by_contra hge
    have : pattern[k]? = none := by
      apply List.getElem?_eq_none
      simp [pattern]
      omega
    rw [this] at hk
    exact Option.noConfusion hk
  have hn : ¬ a < 0 := by omega
  unfold mstostr
  simp only [hn, if_false, e1, e2, e3, e4, e5, e6, e7, w1, w2, w3]
  interval_cases k <;> simp [pattern] at hk <;> subst hk <;>
    simp [fieldsText, styleWidths, lastField]

theorem mstostr_neg (m : Int) (k : Nat) (h0 : m < 0) (hmin : -9223372036854775807 ≤ m) :
    mstostr m k = 45 :: mstostr (-m) k := by
  have hw : wrapLong (-m) = -m := wrapLong_of_fits (by unfold fitsLong; omega)
  have hn : ¬ (-m < 0) := by omega
  unfold mstostr
  simp only [h0, hn, if_true, if_false, hw]
  split <;> simp


theorem pattern_get (k : Nat) (hk : k ≤ 4) : ∃ d, pattern[k]? = some d := by
  interval_cases k <;> exact ⟨_, rfl⟩

theorem strtoms_mstostr_nonneg (a : Int) (k : Nat) (rest : CStr)
    (h0 : 0 ≤ a) (hmax : a ≤ 2147483647999) (hk : k ≤ 4) (hr : startsDigit rest = false) :
    strtoms (mstostr a k ++ rest)
      = ⟨if k = 1 then a - a % 10 else a, (mstostr a k).length, some k⟩ := by
  obtain ⟨d, hd⟩ := pattern_get k hk
  have hlen : (mstostr a k).length
      = (fmtInt (styleWidths k).1 (a / 3600000)).length
        + (fmtInt 2 (a % 3600000 / 60000)).length + (fmtInt 2 (a % 60000 / 1000)).length
        + (fmtInt (styleWidths k).2 (lastField k (a % 1000))).length + 3 := by
    have h := mstostr_nonneg a k [] d h0 (by omega) hd
    have h2 := fieldsText_length d (fmtInt (styleWidths k).1 (a / 3600000))
      (fmtInt 2 (a % 3600000 / 60000)) (fmtInt 2 (a % 60000 / 1000))
      (fmtInt (styleWidths k).2 (lastField k (a % 1000))) []
    rw [← h] at h2
    simpa using h2
  have hl0 : 0 ≤ lastField k (a % 1000) ∧ lastField k (a % 1000) ≤ (if k = 1 then 99 else 999) := by
    unfold lastField
    split <;> omega
  rw [mstostr_nonneg a k rest d h0 (by omega) hd,
    strtoms_fieldsText k d hd _ _ _ _ rest _ _ _ _
      (isField_fmtInt _ (by omega) (by omega)) (isField_fmtInt _ (by omega) (by omega))
      (isField_fmtInt _ (by omega) (by omega)) (isField_fmtInt _ hl0.1 (by split at hl0 <;> omega))
      (fun r => startsDigit_fmtInt _ (by omega) r) hr,
    strtomsFields_eq 0 k _ (by constructor <;> simp only [] <;> omega)
      (by constructor <;> simp only [] <;> omega) hl0
      (by unfold fitsInt; simp only []; omega)]
  simp only [← hlen]
  congr 1
  unfold lastField
  simp only [show ¬ ((0 : Nat) = 45) by decide, if_false]
  split <;> omega

theorem strtoms_mstostr_neg (m : Int) (k : Nat) (rest : CStr)
    (h0 : m < 0) (hmin : -2147483647999 ≤ m) (hk : k ≤ 4) (hr : startsDigit rest = false) :
    strtoms (mstostr m k ++ rest)
      = ⟨if k = 1 then m + (-m) % 10 else m, (mstostr (-m) k).length, some k⟩ := by
  obtain ⟨d, hd⟩ := pattern_get k hk
  have ha0 : (0 : Int) ≤ -m := by omega
  generalize hA : -m = a at ha0
  have hm : m = -a := by omega
  subst hm
  have hlen : (mstostr a k).length
      = (fmtInt (styleWidths k).1 (a / 3600000)).length
        + (fmtInt 2 (a % 3600000 / 60000)).length + (fmtInt 2 (a % 60000 / 1000)).length
        + (fmtInt (styleWidths k).2 (lastField k (a % 1000))).length + 3 := by
    have h := mstostr_nonneg a k [] d ha0 (by omega) hd
    have h2 := fieldsText_length d (fmtInt (styleWidths k).1 (a / 3600000))
      (fmtInt 2 (a % 3600000 / 60000)) (fmtInt 2 (a % 60000 / 1000))
      (fmtInt (styleWidths k).2 (lastField k (a % 1000))) []
    rw [← h] at h2
    simpa using h2
  have hl0 : 0 ≤ lastField k (a % 1000) ∧ lastField k (a % 1000) ≤ (if k = 1 then 99 else 999) := by
    unfold lastField
    split <;> omega
  rw [mstostr_neg (-a) k h0 (by omega), hA, List.cons_append,
    mstostr_nonneg a k rest d ha0 (by omega) hd,
    strtoms_minus_fieldsText k d hd _ _ _ _ rest _ _ _ _
      (isField_fmtInt _ (by omega) (by omega)) (isField_fmtInt _ (by omega) (by omega))
      (isField_fmtInt _ (by omega) (by omega)) (isField_fmtInt _ hl0.1 (by split at hl0 <;> omega))
      hr,
    strtomsFields_eq 45 k _ (by constructor <;> simp only [] <;> omega)
      (by constructor <;> simp only [] <;> omega) hl0
      (by unfold fitsInt; simp only []; omega)]
  simp only [← hlen]
  congr 1
  unfold lastField
  simp only [if_true]
  split <;> omega


theorem isField_numText (neg : Bool) {ds : CStr} (h : IsDigits ds)
    (hfit : fitsInt (numVal neg ds)) : IsField (numText neg ds) (numVal neg ds) := by
  have hl : fitsLong (numVal neg ds) := by
    unfold fitsInt at hfit
    unfold fitsLong
    omega
  cases neg with
  | false =>
    have := isField_digits h
    simp only [numText, numVal, Bool.false_eq_true, if_false] at hfit hl ⊢
    rw [clampLong_of_fits hl, wrapInt_of_fits hfit] at this
    exact this
  | true =>
    have := isField_neg_digits h
    simp only [numText, numVal, if_true] at hfit hl ⊢
    rw [clampLong_of_fits hl, wrapInt_of_fits hfit] at this
    exact this

theorem pattern_mem {d : Nat × Nat × Nat} (h : d ∈ pattern) :
    ∃ k, k ≤ 4 ∧ pattern[k]? = some d := by
  simp only [pattern, List.mem_cons, List.mem_singleton, List.not_mem_nil, or_false] at h
  rcases h with h | h | h | h | h
  · exact ⟨0, by omega, by rw [h]; rfl⟩
  · exact ⟨1, by omega, by rw [h]; rfl⟩
  · exact ⟨2, by omega, by rw [h]; rfl⟩
  · exact ⟨3, by omega, by rw [h]; rfl⟩
  · exact ⟨4, by omega, by rw [h]; rfl⟩

theorem strtomsFields_reject (type k : Nat) (f : Scan4)
    (h : (f.min < 0 ∨ f.min > 59) ∨ (f.sec < 0 ∨ f.sec > 59)
      ∨ (f.msec < 0 ∨ f.msec > (if k = 1 then 99 else 999))) :
    strtomsFields type k f = ⟨-1, 0, none⟩ := by
  unfold strtomsFields
  by_cases a1 : f.min < 0 ∨ f.min > 59
  · simp only [a1, if_true]
  · by_cases a2 : f.sec < 0 ∨ f.sec > 59
    · simp only [a1, a2, if_true, if_false]
    · have a3 : f.msec < 0 ∨ f.msec > (if k = 1 then 99 else 999) := by tauto
      by_cases hk : k = 1
      · simp only [hk, if_true] at a3 ⊢
        simp only [a1, a2, a3, if_true, if_false]
      · simp only [hk, if_false] at a3 ⊢
        simp only [a1, a2, a3, if_true, if_false]

theorem startsDigit_digits {ds : CStr} (h : IsDigits ds) (r : CStr) :
    startsDigit (ds ++ r) = true := by
  obtain ⟨hne, hall⟩ := h
  cases ds with
  | nil => exact absurd rfl hne
  | cons c cs => exact hall c (List.mem_cons_self _ _)


theorem fieldsText_append (d : Nat × Nat × Nat) (t1 t2 t3 t4 rest : CStr) :
    fieldsText d t1 t2 t3 t4 [] ++ rest = fieldsText d t1 t2 t3 t4 rest := by
  simp [fieldsText]

theorem fieldsText_length_nil (d : Nat × Nat × Nat) (t1 t2 t3 t4 : CStr) :
    t1.length + t2.length + t3.length + t4.length + 3 = (fieldsText d t1 t2 t3 t4 []).length := by
  have := fieldsText_length d t1 t2 t3 t4 []
  simpa using this.symm

/-- The text of a timestamp in style `k`, followed by a text that does not start
with a digit, is read by `strtoms` as its value, with its length and its style. -/
theorem strtoms_stampText (k : Nat) (d : Nat × Nat × Nat) (hk : pattern[k]? = some d)
    (w1 w4 h m s f : Nat) (rest : CStr)
    (hh : h ≤ 596522) (hm : m ≤ 59) (hs : s ≤ 59) (hf : f ≤ (if k = 1 then 99 else 999))
    (hr : startsDigit rest = false) :
    strtoms (fieldsText d (fmtInt w1 h) (fmtInt 2 m) (fmtInt 2 s) (fmtInt w4 f) [] ++ rest)
      = ⟨stampMs h m s (if k = 1 then 10 * f else f),
         (fieldsText d (fmtInt w1 h) (fmtInt 2 m) (fmtInt 2 s) (fmtInt w4 f) []).length,
         some k⟩ := by
  have hf' : f ≤ 999 := by split at hf <;> omega
  rw [fieldsText_append, strtoms_fieldsText k d hk _ _ _ _ rest _ _ _ _
      (isField_fmtInt _ (by omega) (by omega)) (isField_fmtInt _ (by omega) (by omega))
      (isField_fmtInt _ (by omega) (by omega)) (isField_fmtInt _ (by omega) (by omega))
      (fun r => startsDigit_fmtInt _ (by omega) r) hr,
    strtomsFields_eq 0 k _ (by constructor <;> simp only [] <;> omega)
      (by constructor <;> simp only [] <;> omega)
      (by constructor <;> simp only [] <;> split at hf <;> simp_all)
      (by unfold fitsInt; simp only []; omega),
    fieldsText_length_nil]
  simp only [show ¬ ((0 : Nat) = 45) by decide, if_false, stampMs]
  congr 1
  split <;> simp

theorem stampMs_bounds (h m s f : Nat) (hh : h ≤ 596522) (hm : m ≤ 59) (hs : s ≤ 59)
    (hf : f ≤ 999) : 0 ≤ stampMs h m s f ∧ stampMs h m s f ≤ 2147483647999 := by
  unfold stampMs
  omega

theorem isLead_of_isdigit {c : Nat} (h : isdigit c = true) : isLead c = false := by
  rw [isdigit_iff] at h
  have : c < 128 := by omega
  simp [isLead, schar, this]
  omega

theorem lead_of_startsDigit {s : CStr} (h : startsDigit s = true) :
    s.takeWhile isLead = [] ∧ s.dropWhile isLead = s := by
  cases s with
  | nil => exact ⟨rfl, rfl⟩
  | cons c cs =>
    have hc : isLead c = false := isLead_of_isdigit h
    simp [List.takeWhile, List.dropWhile, hc]

theorem startsWith_dialogue_of_startsDigit {s : CStr} (h : startsDigit s = true) :
    startsWith dialogueTag s = false := by
  cases s with
  | nil => rfl
  | cons c cs =>
    simp only [startsDigit, isdigit_iff] at h
    have hc : (68 == c) = false := by
      simp
      omega
    simp [startsWith, dialogueTag, cstr, List.isPrefixOf, hc]

theorem copyUntil_append (stop : Nat → Bool) (pre t : CStr)
    (hpre : ∀ c ∈ pre, stop c = false) (ht : ∃ c cs, t = c :: cs ∧ stop c = true) :
    copyUntil stop (pre ++ t) = some (pre, t) := by
  induction pre with
  | nil =>
    obtain ⟨c, cs, rfl, hc⟩ := ht
    simp [copyUntil, hc]
  | cons p ps ih =>
    have hp : stop p = false := hpre p (List.mem_cons_self _ _)
    have := ih (fun c hc => hpre c (List.mem_cons_of_mem _ hc))
    simp [copyUntil, hp, this]

theorem startsDigit_exists {s : CStr} (h : startsDigit s = true) :
    ∃ c cs, s = c :: cs ∧ isdigit c = true := by
  cases s with
  | nil => simp [startsDigit] at h
  | cons c cs => exact ⟨c, cs, rfl, h⟩


/-- The SRT branch of the loop body on a line made of a timestamp text `A`, a run
`pre` without digits, a second timestamp text `B` and a rest. -/
theorem retimeLine_two_stamps (cfg : Config) (srtsn : Int) (style : Option Nat)
    (A pre B rest : CStr) (a b : Int) (ka kb : Nat)
    (hA : strtoms (A ++ (pre ++ (B ++ rest))) = ⟨a, A.length, some ka⟩)
    (hB : strtoms (B ++ rest) = ⟨b, B.length, some kb⟩)
    (hAd : startsDigit (A ++ (pre ++ (B ++ rest))) = true)
    (hBd : startsDigit (B ++ rest) = true)
    (hpre : ∀ c ∈ pre, isdigit c = false) (ha : a ≠ -1) :
    retimeLine cfg srtsn style (A ++ (pre ++ (B ++ rest)))
      = some (mstostr (tweaktime cfg a) ka ++ (pre ++ (mstostr (tweaktime cfg b) kb ++ rest)),
              srtsn, some kb) := by
  unfold retimeLine
  have hl := lead_of_startsDigit hAd
  simp only [hl.1, hl.2, startsWith_dialogue_of_startsDigit hAd, hA, ne_eq, ha,
    not_false_eq_true, if_true, newStyle, List.drop_left,
    copyUntil_append isdigit pre (B ++ rest) hpre (startsDigit_exists hBd), hB]
  simp

/-- With the chop range unset `chop_filter` keeps every line and changes nothing. -/
theorem chop_filter_disabled (cfg : Config) (s : CStr) (magic subidx : Int)
    (h : cfg.tm_chop.1 < 0 ∧ cfg.tm_chop.2 < 0) :
    chop_filter cfg s magic subidx = (false, magic, subidx) := by
  unfold chop_filter
  simp only [h, and_self, if_true]

theorem tweaktime_plain (d ms : Int) (chop : Int × Int) (srtsn : Int)
    (hfit : fitsLong (ms + d)) :
    tweaktime ⟨d, none, (-1, -1), chop, srtsn⟩ ms = ms + d := by
  by_cases h0 : d = 0
  · simp [tweaktime, h0]
  · simp [tweaktime, h0, wrapLong_of_fits hfit]



theorem mstostr_stampMs (k : Nat) (d : Nat × Nat × Nat) (hk : pattern[k]? = some d)
    (h m s f : Nat) (hh : h ≤ 596522) (hm : m ≤ 59) (hs : s ≤ 59) (hf : f ≤ 999) :
    mstostr (stampMs h m s f) k
      = fieldsText d (fmtInt (styleWidths k).1 h) (fmtInt 2 m) (fmtInt 2 s)
          (fmtInt (styleWidths k).2 (lastField k f)) [] := by
  have hb := stampMs_bounds h m s f hh hm hs hf
  have h1 := mstostr_nonneg (stampMs h m s f) k [] d hb.1 (by omega) hk
  rw [List.append_nil] at h1
  rw [h1]
  unfold stampMs at hb ⊢
  have e1 : ((((h : Int) * 60 + m) * 60 + s) * 1000 + f) / 3600000 = h := by omega
  have e2 : ((((h : Int) * 60 + m) * 60 + s) * 1000 + f) % 3600000 / 60000 = m := by omega
  have e3 : ((((h : Int) * 60 + m) * 60 + s) * 1000 + f) % 60000 / 1000 = s := by omega
  have e4 : ((((h : Int) * 60 + m) * 60 + s) * 1000 + f) % 1000 = f := by omega
  rw [e1, e2, e3, e4]



theorem startsWith_append (tag s : CStr) : startsWith tag (tag ++ s) = true := by
  unfold startsWith
  rw [List.isPrefixOf_iff_prefix]
  exact List.prefix_append tag s

/-- The ASS branch of the loop body on a line made of a text `pre` that starts with
`Dialogue:` and has no comma, a comma, a timestamp text `A`, a run `mid` without
comma, a comma, a second timestamp text `B` and a rest. -/
theorem retimeLine_dialogue (cfg : Config) (srtsn : Int) (style : Option Nat)
    (field A mid B rest : CStr) (a b : Int) (ka kb : Nat)
    (hA : strtoms (A ++ (mid ++ 44 :: (B ++ rest))) = ⟨a, A.length, some ka⟩)
    (hB : strtoms (B ++ rest) = ⟨b, B.length, some kb⟩)
    (hfield : ∀ c ∈ field, isComma c = false) (hmid : ∀ c ∈ mid, isComma c = false) :
    retimeLine cfg srtsn style (dialogueTag ++ (field ++ 44 :: (A ++ (mid ++ 44 :: (B ++ rest)))))
      = some (dialogueTag ++ (field ++ 44 :: (mstostr (tweaktime cfg a) ka
                ++ (mid ++ 44 :: (mstostr (tweaktime cfg b) kb ++ rest)))),
              srtsn, some kb) := by
  have hw : (dialogueTag ++ (field ++ 44 :: (A ++ (mid ++ 44 :: (B ++ rest))))).takeWhile isLead
      = [] := by
    simp [dialogueTag, cstr, List.takeWhile, isLead, schar]
  have hdw : (dialogueTag ++ (field ++ 44 :: (A ++ (mid ++ 44 :: (B ++ rest))))).dropWhile isLead
      = dialogueTag ++ (field ++ 44 :: (A ++ (mid ++ 44 :: (B ++ rest)))) := by
    simp [dialogueTag, cstr, List.dropWhile, isLead, schar]
  have hpre : ∀ c ∈ dialogueTag ++ field, isComma c = false := by
    intro c hc
    rcases List.mem_append.1 hc with h | h
    · have hall : ∀ x ∈ dialogueTag, isComma x = false := by decide
      exact hall c h
    · exact hfield c h
  have hc1 := copyUntil_append isComma (dialogueTag ++ field)
    (44 :: (A ++ (mid ++ 44 :: (B ++ rest)))) hpre ⟨44, _, rfl, rfl⟩
  rw [List.append_assoc] at hc1
  have hc2 := copyUntil_append isComma mid (44 :: (B ++ rest)) hmid ⟨44, _, rfl, rfl⟩
  unfold retimeLine
  simp only [hw, hdw, startsWith_append, if_true, hc1, List.drop_succ_cons, List.drop_zero, hA,
    newStyle, List.drop_left, hc2, hB, List.take_succ_cons, List.take_zero]
  simp



theorem chopBand_eq (cfg : Config) (j : Int) (ha : 0 < cfg.tm_chop.1) (hb : 0 < cfg.tm_chop.2) :
    chopBand cfg j = decide (cfg.tm_chop.1 ≤ j ∧ j ≤ cfg.tm_chop.2) := by
  unfold chopBand
  by_cases h1 : j < cfg.tm_chop.1
  · have : ¬ (cfg.tm_chop.1 ≤ j ∧ j ≤ cfg.tm_chop.2) := by omega
    simp [ha, h1, this]
  · by_cases h2 : j > cfg.tm_chop.2
    · have : ¬ (cfg.tm_chop.1 ≤ j ∧ j ≤ cfg.tm_chop.2) := by omega
      simp [h1, hb, h2, this]
    · have : cfg.tm_chop.1 ≤ j ∧ j ≤ cfg.tm_chop.2 := by omega
      simp [h1, h2, this]

theorem chopKeep_body (cfg : Config) (j : Int) (body rest : List CStr)
    (hen : ¬ (cfg.tm_chop.1 < 0 ∧ cfg.tm_chop.2 < 0))
    (hbody : ∀ l ∈ body, is_number l = false) :
    chopKeep cfg 0 j (body ++ rest)
      = (if chopBand cfg j then [] else body) ++ chopKeep cfg 0 j rest := by
  induction body with
  | nil => simp
  | cons l ls ih =>
    have hl : is_number l = false := hbody l (List.mem_cons_self _ _)
    have hf : chop_filter cfg l 0 j = (chopBand cfg j, 0, j) := by
      unfold chop_filter
      simp [hen, hl]
    have ih' := ih (fun x hx => hbody x (List.mem_cons_of_mem _ hx))
    have step : chopKeep cfg 0 j (l :: (ls ++ rest))
        = if chopBand cfg j then chopKeep cfg 0 j (ls ++ rest)
          else l :: chopKeep cfg 0 j (ls ++ rest) := by
      simp only [chopKeep, hf]
    rw [List.cons_append, step, ih']
    by_cases hb : chopBand cfg j = true
    · simp [hb]
    · simp [hb]

theorem chopKeep_entries (cfg : Config) (es : List Entry) (i : Int)
    (ha : 0 < cfg.tm_chop.1) (hb : 0 < cfg.tm_chop.2)
    (hi : 0 ≤ i) (hmax : i + es.length ≤ 2147483647)
    (hwf : ∀ e ∈ es, is_number e.1 = true ∧ ∀ l ∈ e.2, is_number l = false) :
    chopKeep cfg 0 i (streamLines es) = outsideLines cfg.tm_chop.1 cfg.tm_chop.2 (i + 1) es := by
  have hen : ¬ (cfg.tm_chop.1 < 0 ∧ cfg.tm_chop.2 < 0) := by omega
  induction es generalizing i with
  | nil => rfl
  | cons e es ih =>
    have he := hwf e (List.mem_cons_self _ _)
    simp only [List.length_cons, Nat.cast_add, Nat.cast_one] at hmax
    have hw : wrapInt (i + 1) = i + 1 := wrapInt_of_fits (by unfold fitsInt; omega)
    have hf : chop_filter cfg e.1 0 i = (chopBand cfg (i + 1), 0, i + 1) := by
      unfold chop_filter
      simp [hen, he.1, hw]
    have ih' := ih (i + 1) (by omega) (by omega) (fun x hx => hwf x (List.mem_cons_of_mem _ hx))
    have step : chopKeep cfg 0 i (e.1 :: (e.2 ++ streamLines es))
        = if chopBand cfg (i + 1) then chopKeep cfg 0 (i + 1) (e.2 ++ streamLines es)
          else e.1 :: chopKeep cfg 0 (i + 1) (e.2 ++ streamLines es) := by
      simp only [chopKeep, hf]
    simp only [streamLines, entryLines, List.cons_append, outsideLines]
    rw [step, chopKeep_body cfg (i + 1) e.2 (streamLines es) hen he.2, ih',
      chopBand_eq cfg (i + 1) ha hb]
    by_cases hin : cfg.tm_chop.1 ≤ i + 1 ∧ i + 1 ≤ cfg.tm_chop.2
    · simp [hin]
    · simp [hin]


theorem skipSpace_all (s : CStr) (h : ∀ c ∈ s, isspace c = true) : skipSpace s = [] := by
  induction s with
  | nil => rfl
  | cons c cs ih =>
    have hc := h c (List.mem_cons_self _ _)
    simp [skipSpace, hc, ih (fun x hx => h x (List.mem_cons_of_mem _ hx))]

theorem startsDigit_of_space (s : CStr) (h : ∀ c ∈ s, isspace c = true) :
    startsDigit s = false := by
  cases s with
  | nil => rfl
  | cons c cs =>
    have hc := h c (List.mem_cons_self _ _)
    by_contra hd
    have hd' : isdigit c = true := by simpa [startsDigit] using hd
    rw [isspace_of_isdigit hd'] at hc
    exact Bool.noConfusion hc

theorem dropDigits_append (ds rest : CStr) (hd : ∀ c ∈ ds, isdigit c = true)
    (hr : startsDigit rest = false) : dropDigits (ds ++ rest) = rest := by
  induction ds with
  | nil =>
    cases rest with
    | nil => rfl
    | cons c cs =>
      have : isdigit c = false := hr
      simp [dropDigits, this]
  | cons c cs ih =>
    have hc := hd c (List.mem_cons_self _ _)
    simp [dropDigits, hc, ih (fun x hx => hd x (List.mem_cons_of_mem _ hx))]

theorem sscanf4_serial (d : Nat × Nat × Nat) (ds eol : CStr) (hds : IsDigits ds)
    (heol : ∀ c ∈ eol, isspace c = true) : sscanf4 d (ds ++ eol) = none := by
  unfold sscanf4
  rw [scanInt_digits ds eol hds.1 hds.2 (startsDigit_of_space eol heol)]
  simp only [expect, skipSpace_all eol heol]

theorem strtoms_serial (ds eol : CStr) (hds : IsDigits ds)
    (heol : ∀ c ∈ eol, isspace c = true) : strtoms (ds ++ eol) = ⟨-1, 0, none⟩ := by
  unfold strtoms
  rw [takeSign_of_startsDigit (startsDigit_digits hds eol)]
  simp only [pattern, firstMatch, sscanf4_serial _ ds eol hds heol]

theorem is_number_serial (ds eol : CStr) (hds : IsDigits ds)
    (heol : ∀ c ∈ eol, isspace c = true) : is_number (ds ++ eol) = true := by
  have hdrop := dropDigits_append ds eol hds.2 (startsDigit_of_space eol heol)
  obtain ⟨c, cs, hcs, hc⟩ := startsDigit_exists (startsDigit_digits hds eol)
  rw [hcs] at hdrop
  rw [hcs]
  unfold is_number
  simp only [hc, if_true, hdrop]
  cases eol with
  | nil => rfl
  | cons e es =>
    have he := heol e (List.mem_cons_self _ _)
    have : ¬ (schar e > 32) := by
      simp only [isspace, Bool.or_eq_true, Bool.and_eq_true, decide_eq_true_eq] at he
      unfold schar
      split <;> omega
    simp [this]

theorem retimeLine_serial (cfg : Config) (n : Int) (style : Option Nat) (ds eol : CStr)
    (hn : 0 < n) (hds : IsDigits ds) (heol : ∀ c ∈ eol, isspace c = true) :
    retimeLine cfg n style (ds ++ eol) = some (fmtInt 0 n ++ eol, wrapInt (n + 1), style) := by
  have hsd := startsDigit_digits hds eol
  have hl := lead_of_startsDigit hsd
  unfold retimeLine
  simp only [hl.1, hl.2, startsWith_dialogue_of_startsDigit hsd, strtoms_serial ds eol hds heol,
    is_number_serial ds eol hds heol, hn,
    dropDigits_append ds eol hds.2 (startsDigit_of_space eol heol), newStyle]
  simp

theorem retimeLine_other (cfg : Config) (n : Int) (style : Option Nat) (l : CStr)
    (h1 : startsWith dialogueTag (l.dropWhile isLead) = false)
    (h2 : (strtoms (l.dropWhile isLead)).ret = -1)
    (h3 : is_number (l.dropWhile isLead) = false) :
    ∃ style1, retimeLine cfg n style l = some (l, n, style1) := by
  refine ⟨newStyle (strtoms (l.dropWhile isLead)) style, ?_⟩
  unfold retimeLine
  simp [h1, h2, h3, List.takeWhile_append_dropWhile]

theorem srtStamp_eq_mstostr (h m s f : Nat) (hh : h ≤ 596522) (hm : m ≤ 59) (hs : s ≤ 59)
    (hf : f ≤ 999) : mstostr (stampMs h m s f) 0 = srtStamp h m s f := by
  rw [mstostr_stampMs 0 (58, 58, 44) rfl h m s f hh hm hs hf]
  rfl

theorem retimeLine_timing (chop : Int × Int) (tsn n : Int) (style : Option Nat)
    (h1 m1 s1 f1 h2 m2 s2 f2 : Nat) (rest : CStr)
    (hw : (SrtLine.timing h1 m1 s1 f1 h2 m2 s2 f2 rest).WellFormed) :
    retimeLine ⟨0, none, (-1, -1), chop, tsn⟩ n style
        (SrtLine.timing h1 m1 s1 f1 h2 m2 s2 f2 rest).text
      = some ((SrtLine.timing h1 m1 s1 f1 h2 m2 s2 f2 rest).text, n, some 0) := by
  obtain ⟨⟨hh1, hm1, hs1, hf1⟩, ⟨hh2, hm2, hs2, hf2⟩, hr⟩ := hw
  have b1 := stampMs_bounds h1 m1 s1 f1 hh1 hm1 hs1 hf1
  have hA := strtoms_stampText 0 (58, 58, 44) rfl 2 3 h1 m1 s1 f1
    (cstr " --> " ++ (srtStamp h2 m2 s2 f2 ++ rest)) hh1 hm1 hs1 (by simpa using hf1) rfl
  have hB := strtoms_stampText 0 (58, 58, 44) rfl 2 3 h2 m2 s2 f2 rest hh2 hm2 hs2
    (by simpa using hf2) hr
  simp only [show ¬ ((0 : Nat) = 1) by decide, if_false] at hA hB
  have hAd : startsDigit (srtStamp h1 m1 s1 f1
      ++ (cstr " --> " ++ (srtStamp h2 m2 s2 f2 ++ rest))) = true := by
    unfold srtStamp fieldsText
    rw [List.append_assoc]
    exact startsDigit_fmtInt _ (by omega) _
  have hBd : startsDigit (srtStamp h2 m2 s2 f2 ++ rest) = true := by
    unfold srtStamp fieldsText
    rw [List.append_assoc]
    exact startsDigit_fmtInt _ (by omega) _
  have hline := retimeLine_two_stamps ⟨0, none, (-1, -1), chop, tsn⟩ n style
    (srtStamp h1 m1 s1 f1) (cstr " --> ") (srtStamp h2 m2 s2 f2) rest _ _ 0 0 hA hB hAd hBd
    (by decide) (by omega)
  have t1 : ∀ x, tweaktime ⟨0, none, (-1, -1), chop, tsn⟩ x = x := by
    intro x
    simp [tweaktime]
  simp only [SrtLine.text, hline, t1, srtStamp_eq_mstostr h1 m1 s1 f1 hh1 hm1 hs1 hf1,
    srtStamp_eq_mstostr h2 m2 s2 f2 hh2 hm2 hs2 hf2]



theorem retimeStep_unchopped (cfg : Config) (st : RState) (buf : CStr)
    (h : cfg.tm_chop.1 < 0 ∧ cfg.tm_chop.2 < 0) :
    retimeStep cfg st buf
      = match retimeLine cfg st.srtsn st.style buf with
        | none => none
        | some (out, srtsn, style) => some (out, ⟨st.magic, st.subidx, srtsn, style⟩) := by
  unfold retimeStep
  rw [chop_filter_disabled cfg buf st.magic st.subidx h]
  simp

theorem retimeLines_renumber (tsn : Int) (ls : List SrtLine) (n mg si : Int) (sty : Option Nat)
    (hn : 0 < n) (hmax : n + serialCount ls ≤ 2147483647)
    (hwf : ∀ l ∈ ls, l.WellFormed) :
    ∃ sty1, retimeLines ⟨0, none, (-1, -1), (-1, -1), tsn⟩ ⟨mg, si, n, sty⟩ (ls.map SrtLine.text)
      = some (renumbered n ls, ⟨mg, si, n + serialCount ls, sty1⟩) := by
  induction ls generalizing n sty with
  | nil => exact ⟨sty, by simp [retimeLines, renumbered, serialCount]⟩
  | cons l ls ih =>
    have hl := hwf l (List.mem_cons_self _ _)
    have hrest : ∀ x ∈ ls, x.WellFormed := fun x hx => hwf x (List.mem_cons_of_mem _ hx)
    have hch : (⟨0, none, (-1, -1), (-1, -1), tsn⟩ : Config).tm_chop.1 < 0 ∧
        (⟨0, none, (-1, -1), (-1, -1), tsn⟩ : Config).tm_chop.2 < 0 := by
      constructor <;> simp
    cases l with
    | serial ds eol =>
      simp only [serialCount, Nat.cast_add, Nat.cast_one] at hmax
      have hw : wrapInt (n + 1) = n + 1 := wrapInt_of_fits (by unfold fitsInt; omega)
      obtain ⟨sty1, h1⟩ := ih (n + 1) sty (by omega) (by omega) hrest
      refine ⟨sty1, ?_⟩
      simp only [List.map_cons, retimeLines, retimeStep_unchopped _ _ _ hch, SrtLine.text,
        retimeLine_serial _ n sty ds eol hn hl.1 hl.2, hw, h1, renumbered, serialCount]
      simp
      omega
    | timing h1 m1 s1 f1 h2 m2 s2 f2 rest =>
      simp only [serialCount] at hmax
      obtain ⟨sty1, hh⟩ := ih n (some 0) hn hmax hrest
      refine ⟨sty1, ?_⟩
      simp only [List.map_cons, retimeLines, retimeStep_unchopped _ _ _ hch,
        retimeLine_timing (-1, -1) tsn n sty h1 m1 s1 f1 h2 m2 s2 f2 rest hl, hh, renumbered,
        serialCount]
    | other t =>
      simp only [serialCount] at hmax
      obtain ⟨sty0, h0⟩ := retimeLine_other ⟨0, none, (-1, -1), (-1, -1), tsn⟩ n sty t
        hl.1 hl.2.1 hl.2.2
      obtain ⟨sty1, hh⟩ := ih n sty0 hn hmax hrest
      refine ⟨sty1, ?_⟩
      simp only [List.map_cons, retimeLines, retimeStep_unchopped _ _ _ hch, SrtLine.text, h0, hh,
        renumbered, serialCount]

theorem takeSign_type (s : CStr) :
    (takeSign s).1 = 45 ↔ s.head? = some 45 := by
  cases s with
  | nil => simp [takeSign]
  | cons c cs =>
    unfold takeSign
    split <;> simp_all

/-- The function `is_number` rejects every line that starts with an SRT timestamp:
the digits of the hours are followed by a colon. -/
theorem is_number_timing (h m s f : Nat) (rest : CStr) :
    is_number (srtStamp h m s f ++ rest) = false := by
  have hd : IsDigits (fmtInt 2 (h : Int)) := by
    rw [fmtInt_nonneg 2 (by omega)]
    exact isDigits_zeros _ (isDigits_decDigits _)
  have hshape : ∃ X, srtStamp h m s f ++ rest = fmtInt 2 (h : Int) ++ 58 :: X :=
    ⟨fmtInt 2 (m : Int) ++ 58 :: (fmtInt 2 (s : Int) ++ 44 :: (fmtInt 3 (f : Int) ++ rest)),
      by simp [srtStamp, fieldsText]⟩
  obtain ⟨X, hX⟩ := hshape
  rw [hX]
  have hdrop := dropDigits_append (fmtInt 2 (h : Int)) (58 :: X) hd.2 rfl
  obtain ⟨c, cs, hcs, hc⟩ := startsDigit_exists (startsDigit_digits hd (58 :: X))
  rw [hcs] at hdrop ⊢
  unfold is_number
  simp only [hc, if_true, hdrop]
  rfl


theorem fgetsAux_line (line tail : List Nat) (n : Nat) (hline : ∀ b ∈ line, b ≠ 10)
    (hn : line.length < n) :
    fgetsAux n (line ++ 10 :: tail) = (line ++ [10], tail) := by
  induction line generalizing n with
  | nil =>
    cases n with
    | zero => simp at hn
    | succ n => simp [fgetsAux]
  | cons b bs ih =>
    cases n with
    | zero => simp at hn
    | succ n =>
      have hb : b ≠ 10 := hline b (List.mem_cons_self _ _)
      have := ih n (fun x hx => hline x (List.mem_cons_of_mem _ hx))
        (by simpa using hn)
      simp [fgetsAux, hb, this]

theorem cut_of_no_nul (l : List Nat) (h : ∀ b ∈ l, b ≠ 0) : cut l = l := by
  unfold cut
  rw [List.takeWhile_eq_self_iff]
  intro b hb
  simpa using h b hb

theorem toChar_byte (b : Nat) (h : b < 256) : toChar (b : Int) = b := by
  unfold toChar
  omega

/-- Without a match, and with at least as many bytes left in the stream as there
are turns of the loop, the bytes written to the overflow buffer followed by the
bytes left are the bytes read so far followed by the stream. -/
theorem detectLoop_overflow (fuel : Nat) (buf fin : List Nat) (r : Int) (rest ov : List Nat)
    (hlen : fuel ≤ fin.length) (hbyte : ∀ b ∈ fin, b < 256)
    (h : detectLoop fuel buf fin = (r, rest, some ov)) :
    ov ++ rest = buf ++ fin := by
  induction fuel generalizing buf fin with
  | zero => simp [detectLoop] at h
  | succ fuel ih =>
    cases fin with
    | nil => simp at hlen
    | cons b bs =>
      have hb : toChar (b : Int) = b := toChar_byte b (hbyte b (List.mem_cons_self _ _))
      simp only [detectLoop, fgetc, hb] at h
      split at h
      · simp at h
      · have := ih (buf ++ [b]) bs (by simpa using hlen)
          (fun x hx => hbyte x (List.mem_cons_of_mem _ hx)) h
        simpa using this
      · simp only [Prod.mk.injEq, Option.some.injEq] at h
        obtain ⟨_, h2, h3⟩ := h
        rw [← h2, ← h3]
        simp

/-- On a stream of at least four bytes on which `utf_bom_detect` finds no
signature, the overflow buffer followed by the unread rest is the stream. -/
theorem utf_bom_detect_overflow (fin rest ov : List Nat) (r : Int)
    (hlen : 4 ≤ fin.length) (hbyte : ∀ b ∈ fin, b < 256)
    (h : utf_bom_detect fin = (r, rest, some ov)) : ov ++ rest = fin := by
  have := detectLoop_overflow 4 [] fin r rest ov hlen hbyte h
  simpa using this

/-- Each signature of the table other than that of UTF-32LE is detected at its
index, its bytes being consumed and the overflow buffer left alone. -/
theorem utf_bom_detect_signatures (rest : List Nat) :
    utf_bom_detect (0xEF :: 0xBB :: 0xBF :: rest) = (0, rest, none) ∧
    utf_bom_detect (0xFE :: 0xFF :: rest) = (1, rest, none) ∧
    utf_bom_detect (0xFF :: 0xFE :: rest) = (2, rest, none) ∧
    utf_bom_detect (0x00 :: 0x00 :: 0xFE :: 0xFF :: rest) = (3, rest, none) ∧
    utf_bom_detect (0x2B :: 0x2F :: 0x76 :: rest) = (5, rest, none) ∧
    utf_bom_detect (0xF7 :: 0x64 :: 0x4C :: rest) = (6, rest, none) ∧
    utf_bom_detect (0xDD :: 0x73 :: 0x66 :: 0x73 :: rest) = (7, rest, none) ∧
    utf_bom_detect (0x84 :: 0x31 :: 0x95 :: 0x33 :: rest) = (8, rest, none) := by
  refine ⟨?_, ?_, ?_, ?_, ?_, ?_, ?_, ?_⟩ <;> rfl


theorem strchr_none (c : Nat) (s : CStr) (h : c ∉ s) : strchr c s = none := by
  induction s with
  | nil => rfl
  | cons x xs ih =>
    have hx : x ≠ c := fun e => h (by simp [e])
    have hxs : c ∉ xs := fun e => h (List.mem_cons_of_mem _ e)
    simp [strchr, hx, ih hxs]

theorem strchr_append (c : Nat) (pre t : CStr) (h : c ∉ pre) :
    strchr c (pre ++ c :: t) = some (c :: t) := by
  induction pre with
  | nil => simp [strchr]
  | cons x xs ih =>
    have hx : x ≠ c := fun e => h (by simp [e])
    have hxs : c ∉ xs := fun e => h (List.mem_cons_of_mem _ e)
    simp [strchr, hx, ih hxs]

theorem digits_foldl_nonneg (ds : CStr) (h : ∀ c ∈ ds, isdigit c = true) (a : Int)
    (ha : 0 ≤ a) :
    0 ≤ List.foldl (fun (a : Int) (c : Nat) => a * 10 + ((c : Int) - 48)) a ds := by
  induction ds generalizing a with
  | nil => exact ha
  | cons c cs ih =>
    have hc := (isdigit_iff c).1 (h c (List.mem_cons_self _ _))
    simp only [List.foldl_cons]
    exact ih (fun x hx => h x (List.mem_cons_of_mem _ hx)) _ (by omega)

theorem digitsVal_nonneg {ds : CStr} (h : IsDigits ds) : 0 ≤ digitsVal ds :=
  digits_foldl_nonneg ds h.2 0 (le_refl 0)

theorem isField_digits_val {ds : CStr} (h : IsDigits ds) (hmax : digitsVal ds ≤ 2147483647) :
    IsField ds (digitsVal ds) := by
  have h0 := digitsVal_nonneg h
  have := isField_digits h
  rw [clampLong_of_fits (by unfold fitsLong; omega),
    wrapInt_of_fits (by unfold fitsInt; omega)] at this
  exact this

/-- The text of a timestamp in style `k` made of four runs of digits, followed by a
text that does not start with a digit, is read by `strtoms` as its value. -/
theorem strtoms_digitsText (k : Nat) (d : Nat × Nat × Nat) (hk : pattern[k]? = some d)
    (ds1 ds2 ds3 ds4 rest : CStr)
    (h1 : IsDigits ds1) (h2 : IsDigits ds2) (h3 : IsDigits ds3) (h4 : IsDigits ds4)
    (hh : digitsVal ds1 ≤ 596522) (hm : digitsVal ds2 ≤ 59) (hs : digitsVal ds3 ≤ 59)
    (hf : digitsVal ds4 ≤ (if k = 1 then 99 else 999))
    (hr : startsDigit rest = false) :
    strtoms (fieldsText d ds1 ds2 ds3 ds4 [] ++ rest)
      = ⟨((digitsVal ds1 * 60 + digitsVal ds2) * 60 + digitsVal ds3) * 1000
            + (if k = 1 then 10 * digitsVal ds4 else digitsVal ds4),
         (fieldsText d ds1 ds2 ds3 ds4 []).length, some k⟩ := by
  have n1 := digitsVal_nonneg h1
  have n2 := digitsVal_nonneg h2
  have n3 := digitsVal_nonneg h3
  have n4 := digitsVal_nonneg h4
  have hf' : digitsVal ds4 ≤ 999 := by split at hf <;> omega
  rw [fieldsText_append, strtoms_fieldsText k d hk _ _ _ _ rest _ _ _ _
      (isField_digits_val h1 (by omega)) (isField_digits_val h2 (by omega))
      (isField_digits_val h3 (by omega)) (isField_digits_val h4 (by omega))
      (startsDigit_digits h1) hr,
    strtomsFields_eq 0 k _ ⟨n2, hm⟩ ⟨n3, hs⟩ ⟨n4, hf⟩
      (by unfold fitsInt; simp only []; omega),
    fieldsText_length_nil d]
  simp

theorem wrapInt_bounds (x : Int) : -2147483648 ≤ wrapInt x ∧ wrapInt x ≤ 2147483647 := by
  unfold wrapInt
  omega

theorem strtomsValue_bounds (type : Nat) (f : Scan4) (msec : Int) (hm : 0 ≤ msec ∧ msec ≤ 999) :
    -2147483648000 ≤ strtomsValue type f msec ∧ strtomsValue type f msec ≤ 2147483648000 := by
  unfold strtomsValue
  have hb := wrapInt_bounds (f.sec + wrapInt (wrapInt (f.hour * 3600) + wrapInt (f.min * 60)))
  generalize wrapInt (f.sec + wrapInt (wrapInt (f.hour * 3600) + wrapInt (f.min * 60))) = t at hb
  have w1 : wrapLong (t * 1000) = t * 1000 := wrapLong_of_fits (by unfold fitsLong; omega)
  have w2 : wrapLong (t * 1000 + msec) = t * 1000 + msec :=
    wrapLong_of_fits (by unfold fitsLong; omega)
  have w3 : wrapLong (-(t * 1000 + msec)) = -(t * 1000 + msec) :=
    wrapLong_of_fits (by unfold fitsLong; omega)
  simp only [w1, w2, w3]
  split <;> omega

theorem strtomsFields_bounds (type i : Nat) (f : Scan4) :
    -2147483648000 ≤ (strtomsFields type i f).ret ∧
      (strtomsFields type i f).ret ≤ 2147483648000 := by
  unfold strtomsFields
  split
  · simp
  · split
    · simp
    · split
      · split
        · simp
        · rename_i h
          have hw : wrapInt (f.msec * 10) = f.msec * 10 :=
            wrapInt_of_fits (by unfold fitsInt; omega)
          exact strtomsValue_bounds type f _ (by rw [hw]; omega)
      · split
        · simp
        · rename_i h
          exact strtomsValue_bounds type f _ (by omega)

/-- The value returned by `strtoms` lies within the seconds of an `int`. -/
theorem strtoms_ret_bounds (s : CStr) :
    -2147483648000 ≤ (strtoms s).ret ∧ (strtoms s).ret ≤ 2147483648000 := by
  unfold strtoms
  cases hfm : firstMatch (takeSign s).2 0 pattern with
  | none => simp [hfm]
  | some p => simpa [hfm] using strtomsFields_bounds (takeSign s).1 p.1 p.2



theorem mem_fieldsText {b : Nat} {d : Nat × Nat × Nat} {t1 t2 t3 t4 : CStr}
    (h : b ∈ fieldsText d t1 t2 t3 t4 []) :
    (b ∈ t1 ∨ b ∈ t2 ∨ b ∈ t3 ∨ b ∈ t4) ∨ (b = d.1 ∨ b = d.2.1 ∨ b = d.2.2) := by
  simp only [fieldsText, List.mem_append, List.mem_cons, List.append_nil] at h
  tauto

theorem not_mem_digitsText (b : Nat) (k : Nat) (d : Nat × Nat × Nat) (hk : pattern[k]? = some d)
    (hk3 : k ≤ 3) (ds1 ds2 ds3 ds4 : CStr)
    (h1 : IsDigits ds1) (h2 : IsDigits ds2) (h3 : IsDigits ds3) (h4 : IsDigits ds4)
    (hb : b = 45 ∨ b = 47) : b ∉ fieldsText d ds1 ds2 ds3 ds4 [] := by
  intro hmem
  have hdig : ∀ ds : CStr, IsDigits ds → b ∉ ds := by
    intro ds hds hin
    have := (isdigit_iff b).1 (hds.2 b hin)
    omega
  rcases mem_fieldsText hmem with h | h
  · rcases h with h | h | h | h
    · exact hdig _ h1 h
    · exact hdig _ h2 h
    · exact hdig _ h3 h
    · exact hdig _ h4 h
  · interval_cases k <;> simp [pattern] at hk <;> subst hk <;> simp at h <;> omega


/-- A copy loop leaves the line exactly when the text holds no stop byte. -/
theorem copyUntil_none_iff (stop : Nat → Bool) (s : CStr) :
    copyUntil stop s = none ↔ ∀ c ∈ s, stop c = false := by
  induction s with
  | nil => simp [copyUntil]
  | cons c cs ih =>
    unfold copyUntil
    by_cases hc : stop c = true
    · simp [hc]
    · have hf : stop c = false := by simpa using hc
      simp only [hf, Bool.false_eq_true, if_false, List.mem_cons, forall_eq_or_imp,
        true_and]
      rw [← ih]
      cases copyUntil stop cs <;> simp


/-! ## The loop of `retiming` on a stream -/

theorem fgetsAux_length (n : Nat) (fin : List Nat) :
    (fgetsAux n fin).2.length ≤ fin.length := by
  induction fin generalizing n with
  | nil => cases n <;> simp [fgetsAux]
  | cons b r ih =>
    cases n with
    | zero => simp [fgetsAux]
    | succ n =>
      unfold fgetsAux
      split
      · simp
      · have := ih n
        simp only [List.length_cons]
        omega

theorem fgetsAux_consumes (n : Nat) (b : Nat) (r : List Nat) :
    (fgetsAux (n + 1) (b :: r)).2.length < (b :: r).length := by
  unfold fgetsAux
  split
  · simp
  · have := fgetsAux_length n r
    simp only [List.length_cons]
    omega

theorem fgets_length (size : Nat) (fin : List Nat) (p : List Nat × List Nat)
    (h : fgets size fin = some p) : p.2.length ≤ fin.length := by
  cases fin with
  | nil =>
    simp only [fgets] at h
    split at h
    · simp only [Option.some.injEq] at h
      subst h
      simp
    · simp at h
  | cons b bs =>
    simp only [fgets, Option.some.injEq] at h
    subst h
    exact fgetsAux_length _ _

/-- A turn of the loop that goes on has taken a byte from the overflow buffer or
from the stream. -/
theorem utf_readline_consumes (idx : Int) (ovf fin : List Nat) (r : ReadLine)
    (h : utf_readline idx ovf fin = some r) (hr : r.ret > 0) :
    r.overflow.length + r.fin.length < ovf.length + fin.length := by
  unfold utf_readline at h
  split at h
  · split at h
    · rename_i hov
      have hpos : 0 < ovf.length := List.length_pos.2 hov
      split at h
      · simp only [Option.some.injEq] at h
        subst h
        simp
        omega
      · cases hf : fgets (4090 - ovf.length - 1) fin with
        | none =>
          simp only [hf, Option.some.injEq] at h
          subst h
          simp
          omega
        | some p =>
          simp only [hf, Option.some.injEq] at h
          subst h
          have hle : p.2.length ≤ fin.length := fgets_length _ fin p hf
          simp
          omega
    · rename_i hov
      have hov0 : ovf = [] := by simpa using hov
      subst hov0
      cases fin with
      | nil =>
        simp [fgets] at h
        subst h
        simp at hr
      | cons b bs =>
        simp only [fgets, Option.some.injEq] at h
        subst h
        have := fgetsAux_consumes 4087 b bs
        simpa using this
  · simp at h

/-- The loop of `retiming` never runs out of fuel: with more turns allowed than
the overflow buffer and the stream hold bytes, the result does not depend on the
number of turns allowed. -/
theorem retimeLoop_fuel (cfg : Config) (idx : Int) (fuel1 fuel2 : Nat) (st : RState)
    (ovf fin : List Nat) (h1 : ovf.length + fin.length < fuel1)
    (h2 : ovf.length + fin.length < fuel2) :
    retimeLoop cfg idx fuel1 st ovf fin = retimeLoop cfg idx fuel2 st ovf fin := by
  induction fuel1 generalizing fuel2 st ovf fin with
  | zero => omega
  | succ f1 ih =>
    cases fuel2 with
    | zero => omega
    | succ f2 =>
      unfold retimeLoop
      cases hr : utf_readline idx ovf fin with
      | none => rfl
      | some r =>
        simp only []
        split
        · rename_i hpos
          have hc := utf_readline_consumes idx ovf fin r hr hpos
          cases hs : retimeStep cfg st r.buf with
          | none => rfl
          | some p =>
            obtain ⟨o, st1⟩ := p
            simp only []
            rw [ih f2 st1 r.overflow r.fin (by omega) (by omega)]
        · rfl


theorem scanTable_first (b : Nat) (h : b ∉ bomFirst) :
    scanTable [b] 0 (bom_codepage.take BOMLEN) = .noMatch := by
  simp only [bomFirst, List.mem_cons, List.mem_singleton, not_or, List.not_mem_nil,
    or_false] at h
  obtain ⟨h1, h2, h3, h4, h5, h6, h7, h8⟩ := h
  have e1 : ¬ (239 = b) := fun e => h1 e.symm
  have e2 : ¬ (254 = b) := fun e => h2 e.symm
  have e3 : ¬ (255 = b) := fun e => h3 e.symm
  have e4 : ¬ (0 = b) := fun e => h4 e.symm
  have e5 : ¬ (43 = b) := fun e => h5 e.symm
  have e6 : ¬ (247 = b) := fun e => h6 e.symm
  have e7 : ¬ (221 = b) := fun e => h7 e.symm
  have e8 : ¬ (132 = b) := fun e => h8 e.symm
  simp [scanTable, bom_codepage, BOMLEN, e1, e2, e3, e4, e5, e6, e7, e8]

/-- A stream whose first byte starts no signature: `utf_bom_detect` reads that
byte, puts it into the overflow buffer and returns -1. -/
theorem utf_bom_detect_first (b : Nat) (fin : List Nat) (hb : b < 256) (h : b ∉ bomFirst) :
    utf_bom_detect (b :: fin) = (-1, fin, some [b]) := by
  unfold utf_bom_detect detectLoop
  simp only [fgetc, toChar_byte b hb, List.nil_append, scanTable_first b h]

theorem fgetsAux_whole (l rest : List Nat) (n : Nat) (hn : l.length ≤ n)
    (h10 : 10 ∉ l.dropLast) (hend : rest ≠ [] → l.getLast? = some 10) :
    fgetsAux n (l ++ rest) = (l, rest) := by
  induction l generalizing n with
  | nil =>
    have hr : rest = [] := by
      by_contra hne
      simpa using hend hne
    subst hr
    cases n <;> rfl
  | cons b bs ih =>
    cases n with
    | zero => simp at hn
    | succ n =>
      by_cases hb : b = 10
      · subst hb
        have hbs : bs = [] := by
          cases bs with
          | nil => rfl
          | cons c cs => simp [List.dropLast] at h10
        subst hbs
        simp [fgetsAux]
      · have h10' : 10 ∉ bs.dropLast := by
          cases bs with
          | nil => simp
          | cons c cs =>
            simp only [List.dropLast_cons₂, List.mem_cons, not_or] at h10
            exact h10.2
        have hend' : rest ≠ [] → bs.getLast? = some 10 := by
          intro hne
          have := hend hne
          cases bs with
          | nil =>
            simp at this
            exact absurd this hb
          | cons c cs => simpa [List.getLast?_cons_cons] using this
        have := ih n (by simpa using hn) h10' hend'
        simp [fgetsAux, hb, this]

/-- The line reader in its plain branch hands over a whole line and leaves the
rest of the stream. -/
theorem utf_readline_line (idx : Int) (hidx : idx < 0 ∨ cpWidth idx = 1) (l rest : List Nat)
    (hl : IsLine l) (hend : rest ≠ [] → l.getLast? = some 10) :
    utf_readline idx [] (l ++ rest) = some ⟨(l.length : Int), l, rest, []⟩ := by
  obtain ⟨hne, hlen, hb, h10⟩ := hl
  have hcut : cut l = l := cut_of_no_nul l (fun b hb' => (hb b hb').2)
  have hf : fgets 4089 (l ++ rest) = some (l, rest) := by
    cases l with
    | nil => exact absurd rfl hne
    | cons c cs =>
      have := fgetsAux_whole (c :: cs) rest 4088 hlen h10 hend
      simp only [fgets, List.cons_append] at this ⊢
      rw [this]
  unfold utf_readline
  simp [hidx, hf, hcut]

/-- The first line of a stream, whose first byte `utf_bom_detect` has put into the
overflow buffer, is handed over like any other line. -/
theorem utf_readline_first (idx : Int) (hidx : idx < 0 ∨ cpWidth idx = 1) (b : Nat)
    (l rest : List Nat) (hl : IsLine (b :: l)) (hend : rest ≠ [] → (b :: l).getLast? = some 10) :
    utf_readline idx [b] (l ++ rest) = utf_readline idx [] ((b :: l) ++ rest) := by
  rw [utf_readline_line idx hidx (b :: l) rest hl hend]
  obtain ⟨hne, hlen, hb, h10⟩ := hl
  have hcut : cut (b :: l) = b :: l := cut_of_no_nul _ (fun x hx => (hb x hx).2)
  by_cases hb10 : b = 10
  · subst hb10
    have hl0 : l = [] := by
      cases l with
      | nil => rfl
      | cons c cs => simp [List.dropLast] at h10
    subst hl0
    unfold utf_readline
    simp [hidx, hcut]
  · have h10' : 10 ∉ l.dropLast := by
      cases l with
      | nil => simp
      | cons c cs =>
        simp only [List.dropLast_cons₂, List.mem_cons, not_or] at h10
        exact h10.2
    have hend' : rest ≠ [] → l.getLast? = some 10 := by
      intro hr
      have := hend hr
      cases l with
      | nil =>
        simp at this
        exact absurd this hb10
      | cons c cs => simpa [List.getLast?_cons_cons] using this
    have hlast : ¬ ([b].getLast? = some 10) := by simpa using hb10
    by_cases hnil : l ++ rest = []
    · have hl0 : l = [] := (List.append_eq_nil.1 hnil).1
      have hr0 : rest = [] := (List.append_eq_nil.1 hnil).2
      subst hl0 hr0
      unfold utf_readline
      simp [hidx, hb10, fgets, hcut]
    · have hf : fgets (4090 - [b].length - 1) (l ++ rest) = some (l, rest) := by
        have := fgetsAux_whole l rest 4087 (by simpa using hlen) h10' hend'
        cases hlr : l ++ rest with
        | nil => exact absurd hlr hnil
        | cons c cs =>
          rw [hlr] at this
          simp only [fgets, List.length_singleton]
          rw [this]
      unfold utf_readline
      simp only [hidx, if_true, hlast, if_false, hf]
      simp [hcut]


/-- On a stream made of whole lines the loop of `retiming` makes one turn for each
line, in order, and then ends with nothing left to read. -/
theorem retimeLoop_lines (cfg : Config) (idx : Int) (hidx : idx < 0 ∨ cpWidth idx = 1)
    (lines : List CStr) (hl : IsLines lines) (st : RState) (fuel : Nat)
    (hf : lines.flatten.length < fuel) :
    retimeLoop cfg idx fuel st [] lines.flatten
      = match retimeLines cfg st lines with
        | none => none
        | some (out, st1) => some (out, st1, [], []) := by
  induction lines generalizing st fuel with
  | nil =>
    cases fuel with
    | zero => simp at hf
    | succ f =>
      unfold retimeLoop utf_readline
      simp [hidx, fgets, retimeLines]
  | cons l ls ih =>
    cases fuel with
    | zero => simp at hf
    | succ f =>
      obtain ⟨hline, hend, hrest⟩ := hl
      have hend' : ls.flatten ≠ [] → l.getLast? = some 10 := by
        intro h
        apply hend
        intro h0
        subst h0
        simp at h
      have hpos : 0 < l.length := List.length_pos.2 hline.1
      have hr := utf_readline_line idx hidx l ls.flatten hline hend'
      simp only [List.flatten_cons, List.length_append] at hf
      have hf' : ls.flatten.length < f := by omega
      unfold retimeLoop
      simp only [List.flatten_cons, hr]
      have hgt : ((l.length : Int) > 0) := by omega
      simp only [hgt, if_true]
      unfold retimeLines
      cases hs : retimeStep cfg st l with
      | none => rfl
      | some p =>
        obtain ⟨o, st1⟩ := p
        simp only []
        rw [ih hrest st1 f hf']
        cases retimeLines cfg st1 ls with
        | none => rfl
        | some q => rfl

/-- On a stream of whole lines whose first byte starts no signature, with no
codepage other than UTF-8 in `utf_index`, `retiming` writes what the turns of its
loop write for the lines, and leaves the overflow buffer empty. -/
theorem retiming_lines (cfg : Config) (g : Statics) (hidx : g.utf_index ≤ 0)
    (lines : List CStr) (hl : IsLines lines) (hne : lines ≠ [])
    (hbom : ∀ b ∈ bomFirst, lines.flatten.head? ≠ some b) :
    retiming cfg g lines.flatten
      = match retimeLines cfg ⟨-1, g.subidx, cfg.tm_srtsn, none⟩ lines with
        | none => none
        | some (out, st) => some (out, ⟨g.utf_index, [], st.subidx⟩) := by
  have hidx' : g.utf_index < 0 ∨ cpWidth g.utf_index = 1 := by
    by_cases h : g.utf_index < 0
    · exact Or.inl h
    · have h0 : g.utf_index = 0 := by omega
      exact Or.inr (by rw [h0]; rfl)
  cases lines with
  | nil => exact absurd rfl hne
  | cons l ls =>
    obtain ⟨hline, hend, hrest⟩ := hl
    cases l with
    | nil => exact absurd rfl hline.1
    | cons b l =>
      have hb256 : b < 256 := (hline.2.2.1 b (List.mem_cons_self _ _)).1
      have hbf : b ∉ bomFirst := fun hmem => hbom b hmem (by simp)
      have hend' : ls.flatten ≠ [] → (b :: l).getLast? = some 10 := by
        intro h
        apply hend
        intro h0
        subst h0
        simp at h
      have hopen : utf_open g.utf_index g.bom_overflow (((b :: l) :: ls).flatten) 0
          = some ⟨g.utf_index, l ++ ls.flatten, [b], []⟩ := by
        unfold utf_open
        simp only [List.flatten_cons, List.cons_append, utf_bom_detect_first b _ hb256 hbf]
        by_cases h : g.utf_index < 0
        · simp [h]
        · have h0 : g.utf_index = 0 := by omega
          simp [h0]
      have hloop := retimeLoop_lines cfg g.utf_index hidx' ((b :: l) :: ls)
        ⟨hline, hend, hrest⟩ ⟨-1, g.subidx, cfg.tm_srtsn, none⟩
        ([b].length + (l ++ ls.flatten).length + 1)
        (by simp only [List.flatten_cons, List.length_append, List.length_cons,
              List.length_singleton, List.length_nil]; omega)
      have hfirst := utf_readline_first g.utf_index hidx' b l ls.flatten hline hend'
      have hsw : retimeLoop cfg g.utf_index ([b].length + (l ++ ls.flatten).length + 1)
            ⟨-1, g.subidx, cfg.tm_srtsn, none⟩ [b] (l ++ ls.flatten)
          = retimeLoop cfg g.utf_index ([b].length + (l ++ ls.flatten).length + 1)
            ⟨-1, g.subidx, cfg.tm_srtsn, none⟩ [] (((b :: l) :: ls).flatten) := by
        unfold retimeLoop
        simp only [List.flatten_cons, hfirst]
      unfold retiming
      simp only [hopen, hsw]
      rw [hloop]
      cases retimeLines cfg ⟨-1, g.subidx, cfg.tm_srtsn, none⟩ ((b :: l) :: ls) with
      | none => rfl
      | some q => simp

/-- What `is_number` rejects: a text of bytes that does not start with a decimal
digit, or in which the byte after the leading digits is one of 0x21..0x7F. -/
theorem is_number_false_iff (s : CStr) (hb : ∀ b ∈ s, b < 256) :
    is_number s = false ↔
      (startsDigit s = false ∨ ∃ e t, dropDigits s = e :: t ∧ 33 ≤ e ∧ e ≤ 127) := by
  cases s with
  | nil => simp [is_number, startsDigit]
  | cons c cs =>
    by_cases hc : isdigit c = true
    · have hsd : startsDigit (c :: cs) = true := hc
      have hmem : ∀ x ∈ dropDigits (c :: cs), x ∈ c :: cs := by
        intro x
        generalize c :: cs = l
        induction l with
        | nil => simp [dropDigits]
        | cons y ys ih =>
          unfold dropDigits
          split
          · intro hx
            exact List.mem_cons_of_mem _ (ih hx)
          · exact id
      simp only [is_number, hc, if_true, hsd, Bool.true_eq_false, false_or]
      cases hd : dropDigits (c :: cs) with
      | nil => simp
      | cons e t =>
        have he : e < 256 := hb e (hmem e (by rw [hd]; exact List.mem_cons_self _ _))
        constructor
        · intro h
          refine ⟨e, t, rfl, ?_⟩
          by_cases hs : schar e > 32
          · unfold schar at hs
            split at hs <;> omega
          · simp [hs] at h
        · rintro ⟨e1, t1, he1, h1, h2⟩
          have hee : e = e1 := (List.cons.inj he1).1
          subst hee
          have hs : schar e > 32 := by
            unfold schar
            split <;> omega
          simp [hs]
    · have hc' : isdigit c = false := by simpa using hc
      have hsd : startsDigit (c :: cs) = false := hc'
      simp [is_number, hc', hsd]

/-- A bare number line is a number line for `is_number`. -/
theorem is_number_of_bareNumber (s : CStr) (h : bareNumber s = true) : is_number s = true := by
  unfold bareNumber at h
  simp only [Bool.and_eq_true, List.all_eq_true] at h
  obtain ⟨hsd, hall⟩ := h
  cases s with
  | nil => simp [startsDigit] at hsd
  | cons c cs =>
    have hc : isdigit c = true := hsd
    simp only [is_number, hc, if_true]
    cases hd : dropDigits (c :: cs) with
    | nil => rfl
    | cons e t =>
      have he : isspace e = true := hall e (by rw [hd]; exact List.mem_cons_self _ _)
      have hs : ¬ (schar e > 32) := by
        unfold isspace at he
        unfold schar
        simp only [Bool.or_eq_true, Bool.and_eq_true, decide_eq_true_eq] at he
        split <;> omega
      simp [hs]

/-- Where the chop filter does remove whole entries: on the lines of entries that
each are a line `is_number` accepts followed by lines `is_number` rejects, taken
from a fresh state with a chop range `[a,b]`, `1 ≤ a ≤ b`, the lines that
`chop_filter` lets through are, in order, the lines of the entries whose 1-based
position is outside `[a,b]`. -/
theorem chop_srt_entries (cfg : Config) (es : List Entry)
    (ha : 1 ≤ cfg.tm_chop.1) (hab : cfg.tm_chop.1 ≤ cfg.tm_chop.2)
    (hmax : es.length ≤ 2147483647)
    (hwf : ∀ e ∈ es, is_number e.1 = true ∧ ∀ l ∈ e.2, is_number l = false) :
    chopKeep cfg (-1) 0 (streamLines es) = outsideLines cfg.tm_chop.1 cfg.tm_chop.2 1 es := by
  have hen : ¬ (cfg.tm_chop.1 < 0 ∧ cfg.tm_chop.2 < 0) := by omega
  cases es with
  | nil => rfl
  | cons e es =>
    have he := hwf e (List.mem_cons_self _ _)
    have h0 := chopKeep_entries cfg (e :: es) 0 (by omega) (by omega) (by omega)
      (by omega) hwf
    rw [zero_add] at h0
    have hf0 : chop_filter cfg e.1 0 0 = (chopBand cfg 1, 0, 1) := by
      unfold chop_filter
      simp [hen, he.1, wrapInt]
    have hf1 : chop_filter cfg e.1 (-1) 0 = (chopBand cfg 1, 0, 1) := by
      unfold chop_filter
      simp [hen, he.1, wrapInt]
    rw [← h0]
    have s0 : chopKeep cfg 0 0 (e.1 :: (e.2 ++ streamLines es))
        = if chopBand cfg 1 then chopKeep cfg 0 1 (e.2 ++ streamLines es)
          else e.1 :: chopKeep cfg 0 1 (e.2 ++ streamLines es) := by
      simp only [chopKeep, hf0]
    have s1 : chopKeep cfg (-1) 0 (e.1 :: (e.2 ++ streamLines es))
        = if chopBand cfg 1 then chopKeep cfg 0 1 (e.2 ++ streamLines es)
          else e.1 :: chopKeep cfg 0 1 (e.2 ++ streamLines es) := by
      simp only [chopKeep, hf1]
    simp only [streamLines, entryLines, List.cons_append]
    rw [s0, s1]

/-- The chop range `[2,3]` on four entries: entries 1 and 4 are left. -/
theorem chop_srt_entries_example :
    chopKeep ⟨0, none, (-1, -1), (2, 3), -1⟩ (-1) 0 (streamLines sampleEntries)
      = [cstr "1\n", cstr "00:00:01,000 --> 00:00:02,000\n", cstr "one\n", cstr "\n",
         cstr "4\n", cstr "00:00:07,000 --> 00:00:08,000\n", cstr "four\n", cstr "\n"] :=
  (chop_srt_entries ⟨0, none, (-1, -1), (2, 3), -1⟩ sampleEntries (by decide) (by decide)
    (by decide) (by decide)).trans (by decide)

/-- Where a line does pass through: with chop disabled, for every line that, after
its leading bytes in `(0x00,0x20]`, neither starts with `Dialogue:` nor with a text
`strtoms` accepts, and that `is_number` rejects while renumbering is on
(`srtsn > 0`), one turn of the loop of `retiming` writes exactly the bytes of the
line, for every offset, scale and range, and leaves the serial counter as it is. -/
theorem retime_passthrough (cfg : Config) (st : RState) (l : CStr)
    (hchop : cfg.tm_chop.1 < 0 ∧ cfg.tm_chop.2 < 0)
    (h1 : startsWith dialogueTag (l.dropWhile isLead) = false)
    (h2 : (strtoms (l.dropWhile isLead)).ret = -1)
    (h3 : st.srtsn > 0 → is_number (l.dropWhile isLead) = false) :
    retimeStep cfg st l
      = some (l, ⟨st.magic, st.subidx, st.srtsn,
                  newStyle (strtoms (l.dropWhile isLead)) st.style⟩) := by
  have hline : retimeLine cfg st.srtsn st.style l
      = some (l, st.srtsn, newStyle (strtoms (l.dropWhile isLead)) st.style) := by
    unfold retimeLine
    by_cases hs : st.srtsn > 0
    · simp [h1, h2, h3 hs, List.takeWhile_append_dropWhile]
    · simp [h1, h2, hs, List.takeWhile_append_dropWhile]
  rw [retimeStep_unchopped cfg st l hchop, hline]

/-- A text line with leading blanks passes through under an offset, a scale, a
range and renumbering. -/
theorem retime_passthrough_example :
    retimeStep ⟨1000, some (fun x => 2 * x), (0, 5000), (-1, -1), 5⟩ ⟨0, 3, 7, some 0⟩
        (cstr "  Hello, world 12\n")
      = some (cstr "  Hello, world 12\n", ⟨0, 3, 7, some 0⟩) :=
  retime_passthrough ⟨1000, some (fun x => 2 * x), (0, 5000), (-1, -1), 5⟩ ⟨0, 3, 7, some 0⟩
    (cstr "  Hello, world 12\n") (by decide) (by decide) (by decide) (by decide)

/-! ## The claims -/

/-! ### C1: SRT timing line -/

/-- Claim C1 (amended): for every SRT timing line `T1 --> T2<rest>` whose `<rest>`
does not start with a decimal digit, `T1` and `T2` being zero-padded `HH:MM:SS,mmm`
timestamps, and every offset `d` for which `T1+d` and `T2+d` are non-negative
`time_t` values (scale, range gate and chop disabled), one turn of the loop of
`retiming` writes `mstostr (T1+d) 0`, then ` --> `, then `mstostr (T2+d) 0`, then
`<rest>`. -/
theorem retime_srt_line (h1 m1 s1 f1 h2 m2 s2 f2 : Nat) (d : Int) (rest : CStr) (st : RState)
    (srtsn : Int)
    (hh1 : h1 ≤ 596522) (hm1 : m1 ≤ 59) (hs1 : s1 ≤ 59) (hf1 : f1 ≤ 999)
    (hh2 : h2 ≤ 596522) (hm2 : m2 ≤ 59) (hs2 : s2 ≤ 59) (hf2 : f2 ≤ 999)
    (hr : startsDigit rest = false)
    (hd1 : 0 ≤ stampMs h1 m1 s1 f1 + d ∧ fitsLong (stampMs h1 m1 s1 f1 + d))
    (hd2 : 0 ≤ stampMs h2 m2 s2 f2 + d ∧ fitsLong (stampMs h2 m2 s2 f2 + d)) :
    retimeStep ⟨d, none, (-1, -1), (-1, -1), srtsn⟩ st
        (srtStamp h1 m1 s1 f1 ++ (cstr " --> " ++ (srtStamp h2 m2 s2 f2 ++ rest)))
      = some (mstostr (stampMs h1 m1 s1 f1 + d) 0
                ++ (cstr " --> " ++ (mstostr (stampMs h2 m2 s2 f2 + d) 0 ++ rest)),
              ⟨st.magic, st.subidx, st.srtsn, some 0⟩) := by
  have b1 := stampMs_bounds h1 m1 s1 f1 hh1 hm1 hs1 hf1
  have hA := strtoms_stampText 0 (58, 58, 44) rfl 2 3 h1 m1 s1 f1
    (cstr " --> " ++ (srtStamp h2 m2 s2 f2 ++ rest)) hh1 hm1 hs1 (by simpa using hf1) rfl
  have hB := strtoms_stampText 0 (58, 58, 44) rfl 2 3 h2 m2 s2 f2 rest hh2 hm2 hs2
    (by simpa using hf2) hr
  simp only [show ¬ ((0 : Nat) = 1) by decide, if_false] at hA hB
  have hAd : startsDigit (srtStamp h1 m1 s1 f1
      ++ (cstr " --> " ++ (srtStamp h2 m2 s2 f2 ++ rest))) = true := by
    unfold srtStamp fieldsText
    rw [List.append_assoc]
    exact startsDigit_fmtInt _ (by omega) _
  have hBd : startsDigit (srtStamp h2 m2 s2 f2 ++ rest) = true := by
    unfold srtStamp fieldsText
    rw [List.append_assoc]
    exact startsDigit_fmtInt _ (by omega) _
  have hline := retimeLine_two_stamps ⟨d, none, (-1, -1), (-1, -1), srtsn⟩ st.srtsn st.style
    (srtStamp h1 m1 s1 f1) (cstr " --> ") (srtStamp h2 m2 s2 f2) rest _ _ 0 0 hA hB hAd hBd
    (by decide) (by omega)
  unfold retimeStep
  rw [chop_filter_disabled _ _ _ _ (by constructor <;> simp)]
  simp only [Bool.false_eq_true, if_false, hline, tweaktime_plain _ _ _ _ hd1.2,
    tweaktime_plain _ _ _ _ hd2.2]

/-- Claim C1 at the line of the first end-to-end scenario, offset +1000. -/
theorem retime_srt_line_witness :
    retimeStep ⟨1000, none, (-1, -1), (-1, -1), -1⟩ ⟨-1, 0, -1, none⟩
        (cstr "00:02:17,440 --> 00:02:20,375")
      = some (cstr "00:02:18,440 --> 00:02:21,375", ⟨-1, 0, -1, some 0⟩) :=
  retime_srt_line 0 2 17 440 0 2 20 375 1000 [] ⟨-1, 0, -1, none⟩ (-1)
    (by decide) (by decide) (by decide) (by decide) (by decide) (by decide) (by decide)
    (by decide) rfl (by decide) (by decide)

/-- Claim C1 fails as stated: with `<rest>` the digit `5` after `T2 = 00:00:02,000`
the offset 1000 gives `00:00:02,000 --> 00:00:03,005`, not
`00:00:02,000 --> 00:00:03,000` followed by `5`. -/
theorem retime_srt_line_counterexample :
    retimeStep ⟨1000, none, (-1, -1), (-1, -1), -1⟩ ⟨-1, 0, -1, none⟩
        (srtStamp 0 0 1 0 ++ (cstr " --> " ++ (srtStamp 0 0 2 0 ++ cstr "5")))
      = some (cstr "00:00:02,000 --> 00:00:03,005", ⟨-1, 0, -1, some 0⟩) ∧
    mstostr (stampMs 0 0 1 0 + 1000) 0
        ++ (cstr " --> " ++ (mstostr (stampMs 0 0 2 0 + 1000) 0 ++ cstr "5"))
      = cstr "00:00:02,000 --> 00:00:03,0005" := by
  decide

/-! ### C2: ASS dialogue line -/

/-- Claim C2: for every ASS line `Dialogue:<field>,T1,T2,<rest>` whose `<field>` has no
comma, `T1` and `T2` being `H:MM:SS.cc` timestamps, and every offset `d` for which
`T1+d` and `T2+d` are non-negative `time_t` values (scale, range gate and chop
disabled), one turn of the loop of `retiming` writes the text up to and including
the first comma unchanged, then `mstostr (T1+d) 1`, a comma, `mstostr (T2+d) 1`, and
then `,<rest>` unchanged. -/
theorem retime_ass_line (h1 m1 s1 c1 h2 m2 s2 c2 : Nat) (d : Int) (field rest : CStr)
    (st : RState) (srtsn : Int)
    (hh1 : h1 ≤ 596522) (hm1 : m1 ≤ 59) (hs1 : s1 ≤ 59) (hc1 : c1 ≤ 99)
    (hh2 : h2 ≤ 596522) (hm2 : m2 ≤ 59) (hs2 : s2 ≤ 59) (hc2 : c2 ≤ 99)
    (hfield : ∀ c ∈ field, c ≠ 44)
    (hd1 : 0 ≤ stampMs h1 m1 s1 (10 * c1) + d ∧ fitsLong (stampMs h1 m1 s1 (10 * c1) + d))
    (hd2 : 0 ≤ stampMs h2 m2 s2 (10 * c2) + d ∧ fitsLong (stampMs h2 m2 s2 (10 * c2) + d)) :
    retimeStep ⟨d, none, (-1, -1), (-1, -1), srtsn⟩ st
        (cstr "Dialogue:" ++ (field ++ 44 :: (assStamp h1 m1 s1 c1
          ++ 44 :: (assStamp h2 m2 s2 c2 ++ 44 :: rest))))
      = some (cstr "Dialogue:" ++ (field ++ 44 :: (mstostr (stampMs h1 m1 s1 (10 * c1) + d) 1
                ++ 44 :: (mstostr (stampMs h2 m2 s2 (10 * c2) + d) 1 ++ 44 :: rest))),
              ⟨st.magic, st.subidx, st.srtsn, some 1⟩) := by
  have hA := strtoms_stampText 1 (58, 58, 46) rfl 1 2 h1 m1 s1 c1
    (44 :: (assStamp h2 m2 s2 c2 ++ 44 :: rest)) hh1 hm1 hs1 (by simpa using hc1) rfl
  have hB := strtoms_stampText 1 (58, 58, 46) rfl 1 2 h2 m2 s2 c2 (44 :: rest) hh2 hm2 hs2
    (by simpa using hc2) rfl
  simp only [if_true] at hA hB
  have hline := retimeLine_dialogue ⟨d, none, (-1, -1), (-1, -1), srtsn⟩ st.srtsn st.style
    field (assStamp h1 m1 s1 c1) [] (assStamp h2 m2 s2 c2) (44 :: rest) _ _ 1 1 hA hB
    (fun c hc => by simpa [isComma] using hfield c hc) (by simp)
  simp only [List.nil_append] at hline
  unfold retimeStep
  rw [chop_filter_disabled _ _ _ _ (by constructor <;> simp)]
  have hdt : cstr "Dialogue:" = dialogueTag := rfl
  simp only [Bool.false_eq_true, if_false, hdt, hline, tweaktime_plain _ _ _ _ hd1.2,
    tweaktime_plain _ _ _ _ hd2.2]

/-- Claim C2 at the line of the second end-to-end scenario, offset -2000. -/
theorem retime_ass_line_witness :
    retimeStep ⟨-2000, none, (-1, -1), (-1, -1), -1⟩ ⟨-1, 0, -1, none⟩
        (cstr "Dialogue: Marked=0,0:02:42.42,0:02:44.15,Wolf main,autre,0000,0000,0000,,Toujours rien.")
      = some (cstr "Dialogue: Marked=0,0:02:40.42,0:02:42.15,Wolf main,autre,0000,0000,0000,,Toujours rien.",
              ⟨-1, 0, -1, some 1⟩) :=
  retime_ass_line 0 2 42 42 0 2 44 15 (-2000) (cstr " Marked=0")
    (cstr "Wolf main,autre,0000,0000,0000,,Toujours rien.") ⟨-1, 0, -1, none⟩ (-1)
    (by decide) (by decide) (by decide) (by decide) (by decide) (by decide) (by decide)
    (by decide) (by decide) (by decide) (by decide)

/-! ### C3: round trip of the timestamp grammar -/

/-- Claim C3 (amended): for every style `k ≤ 4` and every millisecond value `m` whose
count of seconds fits an `int` (`|m| ≤ 2147483647999`), other than `m = -1` in the
styles 0, 2, 3, 4, `strtoms (mstostr m k)` returns a value other than the failure
sentinel and reports style `k`; in those styles the value is `m`, and in style 1 it
differs from `m` by less than 10. -/
theorem strtoms_mstostr_roundtrip (m : Int) (k : Nat) (hk : k ≤ 4)
    (hlo : -2147483647999 ≤ m) (hhi : m ≤ 2147483647999) (hs : m ≠ -1 ∨ k = 1) :
    (strtoms (mstostr m k)).ret ≠ -1 ∧ (strtoms (mstostr m k)).style = some k ∧
      (k ≠ 1 → (strtoms (mstostr m k)).ret = m) ∧
      (k = 1 → |(strtoms (mstostr m k)).ret - m| < 10) := by
  have key : strtoms (mstostr m k)
      = ⟨if k = 1 then (if 0 ≤ m then m - m % 10 else m + (-m) % 10) else m,
         (strtoms (mstostr m k)).len, some k⟩ := by
    by_cases h0 : 0 ≤ m
    · have h := strtoms_mstostr_nonneg m k [] h0 hhi hk rfl
      rw [List.append_nil] at h
      rw [h]
      simp only [h0, if_true]
    · have h := strtoms_mstostr_neg m k [] (by omega) hlo hk rfl
      rw [List.append_nil] at h
      rw [h]
      simp only [h0, if_false]
  rw [key]
  simp only []
  refine ⟨?_, trivial, ?_, ?_⟩
  · by_cases h1 : k = 1
    · simp only [h1, if_true]
      split <;> omega
    · simp only [h1, if_false]
      omega
  · intro h1
    simp only [h1, if_false]
  · intro h1
    simp only [h1, if_true]
    rw [abs_lt]
    split <;> constructor <;> omega

/-- Claim C3 at `m = 137440` in style 0. -/
theorem strtoms_mstostr_roundtrip_witness :
    (strtoms (mstostr 137440 0)).ret = 137440 ∧ (strtoms (mstostr 137440 0)).style = some 0 :=
  have h := strtoms_mstostr_roundtrip 137440 0 (by decide) (by decide) (by decide)
    (Or.inl (by decide))
  ⟨h.2.2.1 (by decide), h.2.1⟩

/-- Claim C3 fails as stated: the hour count 600000 of `m = 2160000000000` fits an
`int`, yet `strtoms (mstostr m 0)` is not `m`, the seconds overflowing the `int`
in which `strtoms` sums them; and for `m = -1` the value returned is the failure
sentinel `-1` itself. -/
theorem strtoms_mstostr_roundtrip_counterexample :
    fitsInt (Int.tdiv 2160000000000 3600000) ∧
      (strtoms (mstostr 2160000000000 0)).ret = -2134967296000 ∧
      (strtoms (mstostr 2160000000000 0)).ret ≠ 2160000000000 ∧
      (strtoms (mstostr (-1) 0)).ret = -1 := by
  decide

/-! ### C4: field ranges -/

/-- Claim C4 (amended): in each of the five delimiter styles, for every text of four
decimal numerals (an optional leading `+` or `-`, then the hours digits, and
optionally signed minutes, seconds and sub-second numerals) whose minutes, seconds
and sub-second values fit an `int`, `strtoms` returns the sentinel `-1` with
consumed length 0 and writes no style whenever the minutes or the seconds are
outside `[0,59]` or the sub-second field is outside `[0,99]` (style 1) or
`[0,999]` (other styles). -/
theorem strtoms_out_of_range (k : Nat) (d : Nat × Nat × Nat) (hk : pattern[k]? = some d)
    (sgn ds1 ds2 ds3 ds4 rest : CStr) (n2 n3 n4 : Bool)
    (hsgn : sgn = [] ∨ sgn = [43] ∨ sgn = [45])
    (h1 : IsDigits ds1) (h2 : IsDigits ds2) (h3 : IsDigits ds3) (h4 : IsDigits ds4)
    (hr : startsDigit rest = false)
    (f2 : fitsInt (numVal n2 ds2)) (f3 : fitsInt (numVal n3 ds3))
    (f4 : fitsInt (numVal n4 ds4))
    (hbad : (numVal n2 ds2 < 0 ∨ numVal n2 ds2 > 59) ∨ (numVal n3 ds3 < 0 ∨ numVal n3 ds3 > 59)
      ∨ (numVal n4 ds4 < 0 ∨ numVal n4 ds4 > (if k = 1 then 99 else 999))) :
    strtoms (sgn ++ fieldsText d ds1 (numText n2 ds2) (numText n3 ds3) (numText n4 ds4) rest)
      = ⟨-1, 0, none⟩ := by
  have i1 := isField_digits h1
  have i2 := isField_numText n2 h2 f2
  have i3 := isField_numText n3 h3 f3
  have i4 := isField_numText n4 h4 f4
  rcases hsgn with hs | hs | hs <;> subst hs
  · rw [List.nil_append, strtoms_fieldsText k d hk _ _ _ _ rest _ _ _ _ i1 i2 i3 i4
      (startsDigit_digits h1) hr]
    exact strtomsFields_reject _ _ _ hbad
  · rw [List.singleton_append, strtoms_plus_fieldsText k d hk _ _ _ _ rest _ _ _ _ i1 i2 i3 i4 hr]
    exact strtomsFields_reject _ _ _ hbad
  · rw [List.singleton_append, strtoms_minus_fieldsText k d hk _ _ _ _ rest _ _ _ _ i1 i2 i3 i4 hr]
    exact strtomsFields_reject _ _ _ hbad

/-- Claim C4 at the text `12:60:56,789`, whose minutes are 60. -/
theorem strtoms_out_of_range_witness :
    strtoms (cstr "12:60:56,789") = ⟨-1, 0, none⟩ :=
  strtoms_out_of_range 0 (58, 58, 44) rfl [] (cstr "12") (cstr "60") (cstr "56") (cstr "789") []
    false false false (Or.inl rfl) (by decide) (by decide) (by decide) (by decide) rfl
    (by decide) (by decide) (by decide) (by decide)

/-- Claim C4 fails as stated: in the text `0:4294967296:00,000` the minutes field is
outside `[0,59]`, yet `strtoms` accepts it as the timestamp 0 with consumed length
19, the value of the field being stored in an `int`. -/
theorem strtoms_out_of_range_counterexample :
    cstr "0:4294967296:00,000"
        = fieldsText (58, 58, 44) (cstr "0") (cstr "4294967296") (cstr "00") (cstr "000") [] ∧
      digitsVal (cstr "4294967296") > 59 ∧
      strtoms (cstr "0:4294967296:00,000") = ⟨0, 19, some 0⟩ := by
  decide

/-! ### C5: value of a timestamp -/

/-- Claim C5 (amended): for every text that `strtoms` accepts, the pattern `k` having
matched with the fields `f`, provided the count of seconds `(h*60+mi)*60+s` fits an
`int`, the returned value is `((h*60+mi)*60+s)*1000` plus `10*f` in style 1 and `f`
in the other styles, negated exactly when the text starts with `-`. -/
theorem strtoms_value (s : CStr) (k : Nat) (f : Scan4)
    (hm : firstMatch (takeSign s).2 0 pattern = some (k, f))
    (hacc : (strtoms s).ret ≠ -1)
    (hfit : fitsInt ((f.hour * 60 + f.min) * 60 + f.sec)) :
    (strtoms s).ret
      = if s.head? = some 45 then
          -(((f.hour * 60 + f.min) * 60 + f.sec) * 1000
              + (if k = 1 then 10 * f.msec else f.msec))
        else ((f.hour * 60 + f.min) * 60 + f.sec) * 1000
              + (if k = 1 then 10 * f.msec else f.msec) := by
  have hs : strtoms s = strtomsFields (takeSign s).1 k f := by
    unfold strtoms
    simp only [hm]
  rw [hs] at hacc ⊢
  have hok : ¬ ((f.min < 0 ∨ f.min > 59) ∨ (f.sec < 0 ∨ f.sec > 59)
      ∨ (f.msec < 0 ∨ f.msec > (if k = 1 then 99 else 999))) := by
    intro hbad
    rw [strtomsFields_reject _ _ _ hbad] at hacc
    exact hacc rfl
  rw [strtomsFields_eq _ k f (by omega) (by omega) (by omega) hfit]
  simp only [takeSign_type]

/-- Claim C5 at the text `-12:34:56,789`. -/
theorem strtoms_value_witness :
    (strtoms (cstr "-12:34:56,789")).ret = -45296789 :=
  strtoms_value (cstr "-12:34:56,789") 0 ⟨12, 34, 56, 789, 12⟩ (by decide) (by decide)
    (by decide)

/-- Claim C5 fails as stated: `strtoms` accepts the text `600000:00:00,000` with the
fields 600000, 0, 0, 0 in style 0, and returns -2134967296000, not
`((600000*60+0)*60+0)*1000 + 0`. -/
theorem strtoms_value_counterexample :
    firstMatch (takeSign (cstr "600000:00:00,000")).2 0 pattern
        = some (0, ⟨600000, 0, 0, 0, 16⟩) ∧
      (strtoms (cstr "600000:00:00,000")).ret = -2134967296000 ∧
      (strtoms (cstr "600000:00:00,000")).ret ≠ ((600000 * 60 + 0) * 60 + 0) * 1000 + 0 := by
  decide

/-! ### C6: range gate -/

/-- Claim C6 (amended): `tweaktime` returns `ms` unchanged when the start bound is
set and `ms` is below it, or when both bounds are set and `ms` is above the end
bound; in every other case, also for `ms` above an end bound that is set without a
start bound, it applies the offset (and the scale) as if no range were configured.
Both bounds are inclusive, and with the scale disabled the result inside the range
is `ms + offset`. -/
theorem tweaktime_range_gate (offset start stop ms : Int) (scale : Option (Int → Int))
    (chop : Int × Int) (srtsn : Int) :
    (start > -1 → ms < start → tweaktime ⟨offset, scale, (start, stop), chop, srtsn⟩ ms = ms) ∧
    (start > -1 → stop > -1 → ms > stop →
      tweaktime ⟨offset, scale, (start, stop), chop, srtsn⟩ ms = ms) ∧
    ((start > -1 → start ≤ ms ∧ (stop > -1 → ms ≤ stop)) →
      tweaktime ⟨offset, scale, (start, stop), chop, srtsn⟩ ms
        = tweaktime ⟨offset, scale, (-1, -1), chop, srtsn⟩ ms) ∧
    ((start > -1 → start ≤ ms ∧ (stop > -1 → ms ≤ stop)) → fitsLong (ms + offset) →
      tweaktime ⟨offset, none, (start, stop), chop, srtsn⟩ ms = ms + offset) := by
  refine ⟨?_, ?_, ?_, ?_⟩
  · intro h1 h2
    simp [tweaktime, h1, h2]
  · intro h1 h2 h3
    unfold tweaktime
    simp only [h1, h2, h3, true_and, and_self, if_true]
    split <;> rfl
  · intro h
    unfold tweaktime
    have a1 : ¬ (start > -1 ∧ ms < start) := by
      intro ⟨x, y⟩
      have := (h x).1
      omega
    have a2 : ¬ (start > -1 ∧ stop > -1 ∧ ms > stop) := by
      intro ⟨x, y, z⟩
      have := (h x).2 y
      omega
    simp [a1, a2]
  · intro h hfit
    unfold tweaktime
    have a1 : ¬ (start > -1 ∧ ms < start) := by
      intro ⟨x, y⟩
      have := (h x).1
      omega
    have a2 : ¬ (start > -1 ∧ stop > -1 ∧ ms > stop) := by
      intro ⟨x, y, z⟩
      have := (h x).2 y
      omega
    simp only [a1, a2, if_false]
    by_cases h0 : offset = 0
    · simp [h0]
    · simp only [ne_eq, h0, not_false_eq_true, if_true]
      exact wrapLong_of_fits hfit

/-- Claim C6 at the range `[1000,5000]` with offset 100: 500 and 5001 are left
unchanged, 1000 and 5000 are moved. -/
theorem tweaktime_range_gate_witness :
    tweaktime ⟨100, none, (1000, 5000), (-1, -1), -1⟩ 500 = 500 ∧
    tweaktime ⟨100, none, (1000, 5000), (-1, -1), -1⟩ 5001 = 5001 ∧
    tweaktime ⟨100, none, (1000, 5000), (-1, -1), -1⟩ 1000 = 1000 + 100 ∧
    tweaktime ⟨100, none, (1000, 5000), (-1, -1), -1⟩ 5000 = 5000 + 100 :=
  ⟨(tweaktime_range_gate 100 1000 5000 500 none (-1, -1) (-1)).1 (by decide) (by decide),
   (tweaktime_range_gate 100 1000 5000 5001 none (-1, -1) (-1)).2.1 (by decide) (by decide)
     (by decide),
   (tweaktime_range_gate 100 1000 5000 1000 none (-1, -1) (-1)).2.2.2 (by decide) (by decide),
   (tweaktime_range_gate 100 1000 5000 5000 none (-1, -1) (-1)).2.2.2 (by decide) (by decide)⟩

/-- Claim C6 fails as stated: with only the end bound set, at 5000, the value 6000
lies above the range and is still moved by the offset 1000. -/
theorem tweaktime_range_gate_counterexample :
    tweaktime ⟨1000, none, (-1, 5000), (-1, -1), -1⟩ 6000 = 7000 ∧
    tweaktime ⟨1000, none, (-1, 5000), (-1, -1), -1⟩ 6000 ≠ 6000 := by
  decide

/-! ### C7: identity and plain offset -/

/-- Claim C7: with offset 0, scale 0.0 and no range gate `tweaktime` is the identity
on every `ms`, negative values included; with scale 0.0 and no range gate it
returns the `time_t` sum of `ms` and the offset, which is `ms + offset` exactly
whenever that sum is a `time_t` value. -/
theorem tweaktime_identity (chop : Int × Int) (srtsn : Int) :
    (∀ ms, tweaktime ⟨0, none, (-1, -1), chop, srtsn⟩ ms = ms) ∧
    (∀ ms offset, fitsLong ms →
      tweaktime ⟨offset, none, (-1, -1), chop, srtsn⟩ ms = wrapLong (ms + offset)) ∧
    (∀ ms offset, fitsLong (ms + offset) →
      tweaktime ⟨offset, none, (-1, -1), chop, srtsn⟩ ms = ms + offset) := by
  refine ⟨?_, ?_, ?_⟩
  · intro ms
    simp [tweaktime]
  · intro ms offset hfit
    by_cases h0 : offset = 0
    · subst h0
      simp [tweaktime, wrapLong_of_fits hfit]
    · simp [tweaktime, h0]
  · intro ms offset hfit
    by_cases h0 : offset = 0
    · simp [tweaktime, h0]
    · simp [tweaktime, h0, wrapLong_of_fits hfit]

/-- Claim C7 at a negative `ms` and at the offset -2000. -/
theorem tweaktime_identity_witness :
    tweaktime ⟨0, none, (-1, -1), (-1, -1), -1⟩ (-137440) = -137440 ∧
    tweaktime ⟨-2000, none, (-1, -1), (-1, -1), -1⟩ 162420 = 162420 + -2000 :=
  ⟨(tweaktime_identity (-1, -1) (-1)).1 (-137440),
   (tweaktime_identity (-1, -1) (-1)).2.2 162420 (-2000) (by decide)⟩

/-! ### C8: offset before scale -/

/-- Claim C8: for a scale other than 0.0, `f` being its multiplication-and-truncation
`(time_t)((double)ms * tm_scale)`, and every `ms` inside the range (the test being
made on `ms` itself), `tweaktime ms` is `f` applied to the `time_t` sum
`ms + offset`: the offset is added before the scale is applied.  With the scale
2.0, offset 1000 and `ms = 500` this is 3000, not `2*500 + 1000`, also under the
range `[400,1000]`, which holds 500 but not 1500. -/
theorem tweaktime_offset_before_scale (offset start stop ms : Int) (f : Int → Int)
    (chop : Int × Int) (srtsn : Int)
    (hin : (start > -1 → start ≤ ms) ∧ (start > -1 → stop > -1 → ms ≤ stop))
    (hfit : fitsLong (ms + offset)) :
    tweaktime ⟨offset, some f, (start, stop), chop, srtsn⟩ ms = f (ms + offset) ∧
    tweaktime ⟨1000, some (fun x => 2 * x), (-1, -1), chop, srtsn⟩ 500 ≠ 2 * 500 + 1000 ∧
    tweaktime ⟨1000, some (fun x => 2 * x), (400, 1000), chop, srtsn⟩ 500 = 3000 := by
  refine ⟨?_, by simp [tweaktime, wrapLong], by simp [tweaktime, wrapLong]⟩
  unfold tweaktime
  have a1 : ¬ (start > -1 ∧ ms < start) := by
    intro ⟨x, y⟩
    have := hin.1 x
    omega
  have a2 : ¬ (start > -1 ∧ stop > -1 ∧ ms > stop) := by
    intro ⟨x, y, z⟩
    have := hin.2 x y
    omega
  simp only [a1, a2, if_false]
  by_cases h0 : offset = 0
  · simp [h0]
  · simp only [ne_eq, h0, not_false_eq_true, if_true, wrapLong_of_fits hfit]

/-- Claim C8 at the scale 3.0, offset 1000, range `[400,1000]` and `ms = 500`. -/
theorem tweaktime_offset_before_scale_witness :
    tweaktime ⟨1000, some (fun x => 3 * x), (400, 1000), (-1, -1), -1⟩ 500
      = (fun x => 3 * x) (500 + 1000) :=
  (tweaktime_offset_before_scale 1000 400 1000 500 (fun x => 3 * x) (-1, -1) (-1)
    ⟨by decide, by decide⟩ (by decide)).1

/-! ### C9: chop on SRT -/

set_option maxRecDepth 100000 in
/-- Claim C9 fails on the code: the text line `12 angry men` of the first entry is
no bare number, yet `is_number` accepts it and the entry counter advances on it.
With the chop range `[2,3]` on four entries `retiming` removes that text line and
the blank line of entry 1, removes entry 2, keeps the whole of entry 3, and leaves
the counter at 5. -/
theorem chop_text_number_line :
    is_number (cstr "12 angry men\n") = true ∧
    retiming ⟨0, none, (-1, -1), (2, 3), -1⟩ ⟨-1, [], 0⟩
        (cstr ("1\n00:00:01,000 --> 00:00:02,000\n12 angry men\n\n"
            ++ "2\n00:00:03,000 --> 00:00:04,000\ntwo\n\n"
            ++ "3\n00:00:05,000 --> 00:00:06,000\nthree\n\n"
            ++ "4\n00:00:07,000 --> 00:00:08,000\nfour\n\n"))
      = some (cstr ("1\n00:00:01,000 --> 00:00:02,000\n"
                ++ "3\n00:00:05,000 --> 00:00:06,000\nthree\n\n"
                ++ "4\n00:00:07,000 --> 00:00:08,000\nfour\n\n"), ⟨-1, [], 5⟩) := by
  decide

/-! ### C10: serial renumbering -/

/-- Claim C10 (amended): for every start value `n ≥ 1` of the renumbering option and
every stream that is not empty, does not begin with the first byte of a byte-order
mark, is read without a converter (`utf_index ≤ 0`) and is made of whole lines (at
most 4088 bytes without NUL, each but the last ended by a newline), every line being
a serial-number line (digits, then white space only), a timing line of two
zero-padded timestamps whose rest does not start with a digit, or another line that,
after its leading blanks, starts neither with `Dialogue:` nor with a text `strtoms`
accepts and that `is_number` rejects (by `is_number_false_iff`: it does not start
with a digit, or the byte after its leading digits is one of 0x21..0x7F), with no
transform and no chop, `retiming` writes the decimal number `n+k-1` in place of the
digits of the `k`-th serial-number line and every other byte unchanged, the numbers
staying in the range of `int`. -/
theorem retiming_renumber (n : Int) (ls : List SrtLine) (g : Statics)
    (hn : 1 ≤ n) (hmax : n + serialCount ls ≤ 2147483647)
    (hwf : ∀ l ∈ ls, l.WellFormed)
    (hlines : IsLines (ls.map SrtLine.text)) (hne : ls ≠ [])
    (hbom : ∀ b ∈ bomFirst, (ls.map SrtLine.text).flatten.head? ≠ some b)
    (hidx : g.utf_index ≤ 0) :
    retiming ⟨0, none, (-1, -1), (-1, -1), n⟩ g (ls.map SrtLine.text).flatten
      = some (renumbered n ls, ⟨g.utf_index, [], g.subidx⟩) := by
  obtain ⟨sty1, h⟩ := retimeLines_renumber n ls n (-1) g.subidx none (by omega) hmax hwf
  rw [retiming_lines _ g hidx (ls.map SrtLine.text) hlines (by simpa using hne) hbom]
  simp only [h]

set_option maxRecDepth 100000 in
/-- Claim C10 at the start value 5 on the serials 1, 2, 3, which become 5, 6, 7. -/
theorem retiming_renumber_witness :
    (sampleSrt.map SrtLine.text).flatten
        = cstr ("1\n00:00:01,000 --> 00:00:02,000\none\n\n"
            ++ "2\n00:00:03,000 --> 00:00:04,000\ntwo\n\n"
            ++ "3\n00:00:05,000 --> 00:00:06,000\nthree\n\n") ∧
    retiming ⟨0, none, (-1, -1), (-1, -1), 5⟩ ⟨-1, [], 0⟩ (sampleSrt.map SrtLine.text).flatten
        = some (cstr ("5\n00:00:01,000 --> 00:00:02,000\none\n\n"
                  ++ "6\n00:00:03,000 --> 00:00:04,000\ntwo\n\n"
                  ++ "7\n00:00:05,000 --> 00:00:06,000\nthree\n\n"), ⟨-1, [], 0⟩) :=
  ⟨by decide,
   (retiming_renumber 5 sampleSrt ⟨-1, [], 0⟩ (by decide) (by decide) (by decide) (by decide)
      (by simp [sampleSrt]) (by decide) (by decide)).trans (by decide)⟩

set_option maxRecDepth 100000 in
/-- Claim C10 fails as stated: with the start value 0 the serial-number lines keep
their numbers 1, 2, 3 instead of carrying 0, 1, 2, the loop body renumbering only
while `srtsn > 0`; the byte-order mark `EF BB BF` of a UTF-8 stream is read by
`utf_open` and not written back; and at a line that starts with a NUL the loop
ends, the lines after it being dropped. -/
theorem retiming_renumber_counterexample :
    retiming ⟨0, none, (-1, -1), (-1, -1), 0⟩ ⟨-1, [], 0⟩ (sampleSrt.map SrtLine.text).flatten
        = some ((sampleSrt.map SrtLine.text).flatten, ⟨-1, [], 0⟩) ∧
    (sampleSrt.map SrtLine.text).flatten ≠ renumbered 0 sampleSrt ∧
    retiming ⟨0, none, (-1, -1), (-1, -1), 5⟩ ⟨-1, [], 0⟩
        (0xEF :: 0xBB :: 0xBF :: cstr "1\n00:00:01,000 --> 00:00:02,000\none\n\n")
        = some (cstr "5\n00:00:01,000 --> 00:00:02,000\none\n\n", ⟨0, [], 0⟩) ∧
    retiming ⟨0, none, (-1, -1), (-1, -1), 5⟩ ⟨-1, [], 0⟩
        (cstr "1\n" ++ 0 :: cstr "one\n2\n")
        = some (cstr "5\n", ⟨-1, [], 0⟩) := by
  decide

/-! ### C11: BOM of UTF-8 -/

/-- Claim C11: for every stream whose first three bytes are `EF BB BF`,
`utf_bom_detect` returns the index 0 of the UTF-8 descriptor, consumes exactly those
three bytes and does not write the overflow buffer; the line that `utf_readline`
reads afterwards, with the buffer empty, starts at the fourth byte: when the rest
of the stream is a line of fewer than 4088 bytes (none of them NUL) ended by a
newline, that line is returned whole and the stream is left after it. -/
theorem utf_bom_detect_utf8 (rest : List Nat) :
    utf_bom_detect (0xEF :: 0xBB :: 0xBF :: rest) = (0, rest, none) ∧
    (∀ line tail, rest = line ++ 10 :: tail → (∀ b ∈ line, b ≠ 10 ∧ b ≠ 0) →
      line.length < 4088 →
      utf_readline 0 [] rest = some ⟨(line.length : Int) + 1, line ++ [10], tail, []⟩) := by
  refine ⟨rfl, ?_⟩
  intro line tail hrest hline hlen
  subst hrest
  have hne : line ++ 10 :: tail ≠ [] := by simp
  have hfg : fgets 4089 (line ++ 10 :: tail) = some (line ++ [10], tail) := by
    unfold fgets
    split
    · rename_i heq
      exact absurd heq hne
    · rw [fgetsAux_line line tail _ (fun b hb => (hline b hb).1) (by omega)]
  have hcut : cut (line ++ [10]) = line ++ [10] := by
    apply cut_of_no_nul
    intro b hb
    rcases List.mem_append.1 hb with h | h
    · exact (hline b h).2
    · simp only [List.mem_singleton] at h
      omega
  have hw : (0 : Int) < 0 ∨ cpWidth 0 = 1 := Or.inr rfl
  unfold utf_readline
  simp only [hw, if_true, ne_eq, not_true_eq_false, if_false, hfg, hcut]
  simp

/-- Claim C11 at the stream `EF BB BF a b \n c`. -/
theorem utf_bom_detect_utf8_witness :
    utf_bom_detect [0xEF, 0xBB, 0xBF, 97, 98, 10, 99] = (0, [97, 98, 10, 99], none) ∧
    utf_readline 0 [] [97, 98, 10, 99] = some ⟨3, [97, 98, 10], [99], []⟩ :=
  ⟨(utf_bom_detect_utf8 [97, 98, 10, 99]).1,
   (utf_bom_detect_utf8 [97, 98, 10, 99]).2 [97, 98] [99] rfl (by decide) (by decide)⟩

/-! ### C12: scale from a ratio of timestamps -/

/-- Claim C12 (amended): `arg_scale` applied to `01:44:30,290/01:44:31,660` returns
the quotient `6270290.0/6271660.0` of the millisecond values that `strtoms` returns
for the two timestamps. -/
theorem arg_scale_ratio (strtodEnd : CStr → CStr) :
    arg_scale strtodEnd (cstr "01:44:30,290/01:44:31,660") = .quot 6270290 6271660 ∧
    (strtoms (cstr "01:44:30,290")).ret = 6270290 ∧
    (strtoms (cstr "01:44:31,660")).ret = 6271660 :=
  ⟨rfl, rfl, rfl⟩

/-- Claim C12 fails as stated: the quotient returned is that of 6270290 and 6271660,
not that of 90290000 and 90291660, and the two quotients differ by more than
`1/10000`. -/
theorem arg_scale_ratio_counterexample :
    arg_scale (fun s => s) (cstr "01:44:30,290/01:44:31,660") ≠ .quot 90290000 90291660 ∧
    (90290000 : ℚ) / 90291660 - 6270290 / 6271660 > 1 / 10000 := by
  refine ⟨by decide, by norm_num⟩

/-! ### C13: offset from a subtractive pair -/

/-- Claim C13 (amended): for every unsigned timestamp text `A` in one of the styles
0 to 3 (four runs of digits, in range), every byte `c` other than `/` in front of
it and every text `B` without `/` that `strtoms` accepts, `arg_offset` applied to
`cA-B` returns `strtoms(A) - strtoms(B)`: the first byte of the argument, the
switch character `+` or `-`, is skipped and gives no sign to `A`. -/
theorem arg_offset_subtract (c k : Nat) (d : Nat × Nat × Nat) (hk : pattern[k]? = some d)
    (hk3 : k ≤ 3) (ds1 ds2 ds3 ds4 B : CStr)
    (h1 : IsDigits ds1) (h2 : IsDigits ds2) (h3 : IsDigits ds3) (h4 : IsDigits ds4)
    (hh : digitsVal ds1 ≤ 596522) (hm : digitsVal ds2 ≤ 59) (hs : digitsVal ds3 ≤ 59)
    (hf : digitsVal ds4 ≤ (if k = 1 then 99 else 999))
    (hc : c ≠ 47) (hB : (strtoms B).ret ≠ -1) (hB47 : 47 ∉ B) :
    arg_offset (c :: (fieldsText d ds1 ds2 ds3 ds4 [] ++ 45 :: B))
      = (strtoms (fieldsText d ds1 ds2 ds3 ds4 [])).ret - (strtoms B).ret := by
  have n1 := digitsVal_nonneg h1
  have n2 := digitsVal_nonneg h2
  have n3 := digitsVal_nonneg h3
  have n4 := digitsVal_nonneg h4
  have hf' : digitsVal ds4 ≤ 999 := by split at hf <;> omega
  have hA := strtoms_digitsText k d hk ds1 ds2 ds3 ds4 [] h1 h2 h3 h4 hh hm hs hf rfl
  rw [List.append_nil] at hA
  have hAB := strtoms_digitsText k d hk ds1 ds2 ds3 ds4 (45 :: B) h1 h2 h3 h4 hh hm hs hf rfl
  have hno47 : strchr 47 (c :: (fieldsText d ds1 ds2 ds3 ds4 [] ++ 45 :: B)) = none := by
    apply strchr_none
    intro hmem
    rcases List.mem_cons.1 hmem with h | h
    · exact hc h.symm
    · rcases List.mem_append.1 h with h | h
      · exact not_mem_digitsText 47 k d hk hk3 ds1 ds2 ds3 ds4 h1 h2 h3 h4 (Or.inr rfl) h
      · rcases List.mem_cons.1 h with h | h
        · omega
        · exact hB47 h
  have h45 : strchr 45 (fieldsText d ds1 ds2 ds3 ds4 [] ++ 45 :: B) = some (45 :: B) :=
    strchr_append 45 _ B
      (not_mem_digitsText 45 k d hk hk3 ds1 ds2 ds3 ds4 h1 h2 h3 h4 (Or.inl rfl))
  have hb := strtoms_ret_bounds B
  have hv : (strtoms (fieldsText d ds1 ds2 ds3 ds4 [] ++ 45 :: B)).ret ≠ -1 := by
    rw [hAB]
    simp only []
    split <;> omega
  have hfit : fitsLong ((strtoms (fieldsText d ds1 ds2 ds3 ds4 [] ++ 45 :: B)).ret
      - (strtoms B).ret) := by
    rw [hAB]
    unfold fitsLong
    simp only []
    split <;> omega
  unfold arg_offset
  simp only [hno47, List.drop_succ_cons, List.drop_zero, h45, hv, if_false, hB,
    wrapLong_of_fits hfit]
  rw [hAB, hA]

/-- Claim C13 at the argument of the help text, `+01:44:31,660-01:44:36,290`. -/
theorem arg_offset_subtract_witness :
    arg_offset (cstr "+01:44:31,660-01:44:36,290") = -4630 :=
  (arg_offset_subtract 43 0 (58, 58, 44) rfl (by decide) (cstr "01") (cstr "44") (cstr "31")
    (cstr "660") (cstr "01:44:36,290") (by decide) (by decide) (by decide) (by decide)
    (by decide) (by decide) (by decide) (by decide) (by decide) (by decide) (by decide)).trans
    (by decide)

/-- Claim C13 fails as stated: the first byte of the argument is skipped whatever it
is.  For `A = -01:44:31,660` the result is `-4630`, as for `+01:44:31,660`, not
`strtoms(A) - strtoms(B) = -12547950`; for `A = 12:00:00,000` and `B = 01:00:00,000`
it is the difference of 2 hours and 1 hour, not of 12 hours and 1 hour. -/
theorem arg_offset_subtract_counterexample :
    arg_offset (cstr "-01:44:31,660-01:44:36,290") = -4630 ∧
    (strtoms (cstr "-01:44:31,660")).ret - (strtoms (cstr "01:44:36,290")).ret = -12547950 ∧
    arg_offset (cstr "12:00:00,000-01:00:00,000") = 3600000 ∧
    (strtoms (cstr "12:00:00,000")).ret - (strtoms (cstr "01:00:00,000")).ret = 39600000 := by
  decide

/-! ### C14: malformed Dialogue line -/

set_option maxRecDepth 100000 in
/-- Claim C14 fails on the code: the ASS branch of the loop body does not test what
`strtoms` returns.  With no transform at all, the second line below, whose first
timestamp field is `foo`, is written with the text `-0:00:00.00` of the failure
value `-1` put in front of `foo`; as the first line of a stream the same line reads
the variable `style` before it was ever written. -/
theorem retime_malformed_dialogue :
    retiming ⟨0, none, (-1, -1), (-1, -1), -1⟩ ⟨-1, [], 0⟩
        (cstr ("Dialogue: Marked=0,0:02:42.42,0:02:44.15,Wolf main\n"
            ++ "Dialogue: Marked=0,foo,0:02:44.15,Wolf main\n"))
      = some (cstr ("Dialogue: Marked=0,0:02:42.42,0:02:44.15,Wolf main\n"
                ++ "Dialogue: Marked=0,-0:00:00.00foo,0:02:44.15,Wolf main\n"),
              ⟨-1, [], 0⟩) ∧
    retiming ⟨0, none, (-1, -1), (-1, -1), -1⟩ ⟨-1, [], 0⟩
        (cstr "Dialogue: Marked=0,foo,0:02:44.15,Wolf main\n") = none := by
  decide

/-! ### C15: verbatim passthrough -/

/-- Claim C15 fails on the code: the line `2 fast 2 furious` starts neither with
`Dialogue:` nor with a timestamp and is no number line, yet with renumbering on it
is written as `5 fast 2 furious` and the serial counter goes from 5 to 6:
`is_number` accepts digits followed by a blank. -/
theorem retime_digits_then_text :
    startsWith dialogueTag (cstr "2 fast 2 furious\n") = false ∧
    (strtoms (cstr "2 fast 2 furious\n")).ret = -1 ∧
    retimeStep ⟨0, none, (-1, -1), (-1, -1), 5⟩ ⟨-1, 0, 5, none⟩ (cstr "2 fast 2 furious\n")
      = some (cstr "5 fast 2 furious\n", ⟨-1, 0, 6, none⟩) := by
  decide

/-! ### C16: renumbering of pure integer lines -/

/-- Claim C16 fails on the code: `is_number` looks at one byte after the digits
only, so it accepts the line `12 angry men`; with renumbering on the loop body
writes `5 angry men` and advances the serial counter from 5 to 6. -/
theorem retime_number_with_text :
    is_number (cstr "12 angry men\n") = true ∧
    retimeStep ⟨0, none, (-1, -1), (-1, -1), 5⟩ ⟨-1, 0, 5, none⟩ (cstr "12 angry men\n")
      = some (cstr "5 angry men\n", ⟨-1, 0, 6, none⟩) := by
  decide

/-! ### C17: chop bounds that are not positive -/

/-- Claim C17 (amended): for every chop range in which both bounds are negative (for
example `-1:-1`) the chop filter is inactive: `chop_filter` returns 0 for every
line in every format state, and changes neither the format state nor the entry
counter. -/
theorem chop_filter_inactive (cfg : Config) (s : CStr) (magic subidx : Int)
    (h1 : cfg.tm_chop.1 < 0) (h2 : cfg.tm_chop.2 < 0) :
    chop_filter cfg s magic subidx = (false, magic, subidx) :=
  chop_filter_disabled cfg s magic subidx ⟨h1, h2⟩

/-- Claim C17 at the range `-1:-1`, on a number line in the state SRT. -/
theorem chop_filter_inactive_witness :
    chop_filter ⟨0, none, (-1, -1), (-1, -1), -1⟩ (cstr "1\n") 0 0 = (false, 0, 0) :=
  chop_filter_inactive ⟨0, none, (-1, -1), (-1, -1), -1⟩ (cstr "1\n") 0 0 (by decide)
    (by decide)

/-- Claim C17 fails as stated: with the range `0:0` the filter is active and,
neither bound being positive, removes the number line that opens an SRT stream and
the text line after it. -/
theorem chop_filter_inactive_counterexample :
    chop_filter ⟨0, none, (-1, -1), (0, 0), -1⟩ (cstr "1\n") (-1) 0 = (true, 0, 1) ∧
    chop_filter ⟨0, none, (-1, -1), (0, 0), -1⟩ (cstr "some text\n") 0 1 = (true, 0, 1) := by
  decide

/-! ### C18: consumed length -/

/-- Claim C18 fails on the code for a text with a leading sign: the count that `%n`
stores starts after the sign that `strtoms` has consumed.  For `-12:34:56,789`, of
13 characters, the length reported is 12; the loop body of `retiming` then resumes
one character early on the line `+00:00:01,000 --> 00:00:02,000` and spoils it. -/
theorem strtoms_len_signed :
    strtoms (cstr "-12:34:56,789") = ⟨-45296789, 12, some 0⟩ ∧
    (cstr "-12:34:56,789").length = 13 ∧
    retimeStep ⟨0, none, (-1, -1), (-1, -1), -1⟩ ⟨-1, 0, -1, none⟩
        (cstr "+00:00:01,000 --> 00:00:02,000\n")
      = some (cstr "00:00:01,000-00:00:00,0010 --> 00:00:02,000\n",
              ⟨-1, 0, -1, some 0⟩) := by
  decide

/-! ### C19: bytes probed without a match -/

/-- Claim C19 fails on the code at the end of the stream: `fgetc` returns `EOF`,
which is stored as the byte `FF`.  On the empty stream `utf_bom_detect` leaves the
two bytes `FF FF` in the overflow buffer, which `utf_readline` then returns as a
line of two bytes; on the stream `EF BB` it leaves `EF BB FF`. -/
theorem utf_bom_detect_eof :
    utf_bom_detect [] = (-1, [], some [0xFF, 0xFF]) ∧
    utf_readline (-1) [0xFF, 0xFF] [] = some ⟨2, [0xFF, 0xFF], [], []⟩ ∧
    utf_bom_detect [0xEF, 0xBB] = (-1, [], some [0xEF, 0xBB, 0xFF]) := by
  decide

/-! ### C20: signatures of the table -/

/-- Claim C20 fails on the code for UTF-32LE: on a stream that begins with
`FF FE 00 00` the loop stops at the entry of UTF-16LE, whose two bytes match first;
`utf_bom_detect` returns 2, not 4, and consumes two bytes only. -/
theorem utf_bom_detect_utf32le (rest : List Nat) :
    utf_bom_detect (0xFF :: 0xFE :: 0x00 :: 0x00 :: rest) = (2, 0x00 :: 0x00 :: rest, none) :=
  rfl

/-! ### C21: format classification -/

set_option maxRecDepth 100000 in
/-- Claim C22 fails on the code: the entry counter `subidx` is a `static` variable
of `chop_filter` that no call of `retiming` resets.  With the chop range `[2,3]` the
first stream of four entries loses its entries 2 and 3 and leaves the counter at 4;
the same stream processed next, its entries counted 5 to 8, loses nothing. -/
theorem retiming_second_stream :
    retiming ⟨0, none, (-1, -1), (2, 3), -1⟩ ⟨-1, [], 0⟩ (streamLines sampleEntries).flatten
      = some (cstr ("1\n00:00:01,000 --> 00:00:02,000\none\n\n"
                ++ "4\n00:00:07,000 --> 00:00:08,000\nfour\n\n"), ⟨-1, [], 4⟩) ∧
    retiming ⟨0, none, (-1, -1), (2, 3), -1⟩ ⟨-1, [], 4⟩ (streamLines sampleEntries).flatten
      = some (cstr ("1\n00:00:01,000 --> 00:00:02,000\none\n\n"
                ++ "2\n00:00:03,000 --> 00:00:04,000\ntwo\n\n"
                ++ "3\n00:00:05,000 --> 00:00:06,000\nthree\n\n"
                ++ "4\n00:00:07,000 --> 00:00:08,000\nfour\n\n"), ⟨-1, [], 8⟩) := by
  decide

/-! ### C23: failure sentinel -/

/-- Claim C23 fails on the code, and this is where: for every text in which, after
an optional sign, one of the five patterns matches with the fields `f` in range and
a count of seconds that fits an `int`, `strtoms` returns the failure value `-1`
exactly when the text starts with `-` and the timestamp is worth one millisecond. -/
theorem strtoms_sentinel (s : CStr) (k : Nat) (f : Scan4)
    (hm : firstMatch (takeSign s).2 0 pattern = some (k, f))
    (hh : 0 ≤ f.hour) (hmin : 0 ≤ f.min ∧ f.min ≤ 59) (hsec : 0 ≤ f.sec ∧ f.sec ≤ 59)
    (hms : 0 ≤ f.msec ∧ f.msec ≤ (if k = 1 then 99 else 999))
    (hfit : fitsInt ((f.hour * 60 + f.min) * 60 + f.sec)) :
    (strtoms s).ret = -1 ↔
      (s.head? = some 45 ∧
        ((f.hour * 60 + f.min) * 60 + f.sec) * 1000
          + (if k = 1 then 10 * f.msec else f.msec) = 1) := by
  have hs : strtoms s = strtomsFields (takeSign s).1 k f := by
    unfold strtoms
    simp only [hm]
  rw [hs, strtomsFields_eq _ k f hmin hsec hms hfit]
  simp only [takeSign_type]
  have hv : 0 ≤ ((f.hour * 60 + f.min) * 60 + f.sec) * 1000
      + (if k = 1 then 10 * f.msec else f.msec) := by
    split <;> omega
  generalize ((f.hour * 60 + f.min) * 60 + f.sec) * 1000
      + (if k = 1 then 10 * f.msec else f.msec) = v at hv
  by_cases hd : s.head? = some 45
  · simp only [hd, if_true, true_and]
    omega
  · simp only [hd, if_false, false_and, iff_false]
    omega

/-- Claim C23 at the text `-00:00:00,001`, a timestamp of the first grammar with all
fields in range: `strtoms` returns `-1` for it, and `arg_offset` rejects it as an
offset. -/
theorem strtoms_sentinel_witness :
    (strtoms (cstr "-00:00:00,001")).ret = -1 ∧ arg_offset (cstr "-00:00:00,001") = -1 :=
  ⟨(strtoms_sentinel (cstr "-00:00:00,001") 0 ⟨0, 0, 0, 1, 12⟩ (by decide) (by decide)
      (by decide) (by decide) (by decide) (by decide)).2 ⟨rfl, by decide⟩,
   by decide⟩

/-! ### C24: copy loops and the end of the line -/

/-- Claim C24 fails on the code: a copy loop of the loop body stops at its stop byte
only, so it leaves the line exactly when the text it scans holds no such byte.  With
`style` already written, the body leaves the line on a `Dialogue:` line without a
comma, on one with a single comma, and on an SRT line with no digit after its first
timestamp. -/
theorem retime_scan_overrun :
    (∀ (stop : Nat → Bool) (s : CStr),
      copyUntil stop s = none ↔ ∀ c ∈ s, stop c = false) ∧
    retimeStep ⟨0, none, (-1, -1), (-1, -1), -1⟩ ⟨-1, 0, -1, some 1⟩
        (cstr "Dialogue: x\n") = none ∧
    retimeStep ⟨0, none, (-1, -1), (-1, -1), -1⟩ ⟨-1, 0, -1, some 1⟩
        (cstr "Dialogue: 0,0:00:01.00 end\n") = none ∧
    retimeStep ⟨0, none, (-1, -1), (-1, -1), -1⟩ ⟨-1, 0, -1, some 0⟩
        (cstr "00:00:01,000 -->\n") = none :=
  ⟨copyUntil_none_iff, by decide, by decide, by decide⟩


end Subsync
